import Mathlib

/-!
Verification development for the `zanaverse_onboarding` repository.

The development shallowly embeds the two algorithmic cores of the
repository:

* the provisioning reconciliation engine of
  `zanaverse_onboarding/cli.py` (blueprint merging, workspace
  normalization, plan building and plan application), and
* the row-level permission policy engine of
  `zanaverse_onboarding/permissions.py` (policy layering, permission
  query condition generation, and the membership-aware Project/Task
  predicates).

Dynamic Python/YAML values are embedded as the inductive type `Val`;
Python dicts are embedded as association lists (`Dict`) whose
operations mirror Python dict semantics (first-occurrence lookup,
in-place update preserving insertion order).  The external Frappe
persistence layer (`frappe.db`) is embedded as a list of stored
documents (`Store`) with lookup, filtered queries, insert and in-place
save; it is an external collaborator of the repository, modelled after
the behaviour the spec describes for it (first-match row queries and
derived names at insert time for tax templates).
-/

set_option maxHeartbeats 1000000
set_option maxRecDepth 100000

namespace ZVO

/-- Dynamic values (the YAML/Python value universe used by the blueprints,
documents and policies). -/
inductive Val where
  | vnone : Val
  | b : Bool → Val
  | i : Int → Val
  | s : String → Val
  | l : List Val → Val
  | d : List (String × Val) → Val
deriving Repr

/-- A Python dict, embedded as an association list in insertion order. -/
abbrev Dict := List (String × Val)

/-- The persisted document store: a list of records in insertion order. -/
abbrev Store := List Dict

/-- `d.get(k)`: first-occurrence lookup. -/
def dget : Dict → String → Option Val
  | [], _ => none
  | (k', v) :: rest, k => if k' = k then some v else dget rest k

/-- `d.get(k)` where a missing key yields Python `None`. -/
def dgetN (d : Dict) (k : String) : Val := (dget d k).getD .vnone

/-- `k in d`. -/
def hasKey (d : Dict) (k : String) : Bool := (dget d k).isSome

/-- `d[k] = v`: replace in place when the key is present (keeping its
position, as Python dicts do), append otherwise. -/
def dset : Dict → String → Val → Dict
  | [], k, v => [(k, v)]
  | (k', v') :: rest, k, v =>
      if k' = k then (k, v) :: rest else (k', v') :: dset rest k v

/-- `d.pop(k, None)`: remove the key. -/
def dpop (d : Dict) (k : String) : Dict := d.filter (fun kv => kv.1 ≠ k)

/-- `{**a, **b}`: shallow dict merge, later keys winning per field. -/
def dmerge (a b : Dict) : Dict := b.foldl (fun acc kv => dset acc kv.1 kv.2) a

/-- `d.setdefault(k, v)`. -/
def dsetdefault (d : Dict) (k : String) (v : Val) : Dict :=
  if hasKey d k then d else dset d k v

/-- Python truthiness of a value. -/
def truthy : Val → Bool
  | .vnone => false
  | .b x => x
  | .i n => n != 0
  | .s str => str != ""
  | .l xs => !xs.isEmpty
  | .d kvs => !kvs.isEmpty

/-- Coerce a value to a list for iteration (`rows or []`): falsy values
iterate as empty; the blueprints only put lists in the child-table
slots (a truthy non-list there raises `TypeError` in Python and does
not occur in this data model). -/
def asList : Val → List Val
  | .l xs => xs
  | _ => []

/-- Coerce a value to a dict (`row or {}`): falsy values give the empty
dict; child rows and policy maps are always dicts in this data model. -/
def asDict : Val → Dict
  | .d kvs => kvs
  | _ => []

mutual

/-- Python `==` on embedded values: numbers compare across `bool`/`int`
(`True == 1`), lists compare elementwise, dicts compare entrywise.
Python dict equality ignores insertion order, but every pair of dicts
this code ever compares is produced by the same deterministic
construction on both sides (the same loader or the same normalizer),
so their insertion orders coincide and the positional comparison is
faithful. -/
def pyEq : Val → Val → Bool
  | .vnone, .vnone => true
  | .b x, .b y => x == y
  | .b x, .i n => (if x then (1 : Int) else 0) == n
  | .i n, .b x => n == (if x then (1 : Int) else 0)
  | .i m, .i n => m == n
  | .s x, .s y => x == y
  | .l xs, .l ys => pyEqList xs ys
  | .d xs, .d ys => pyEqKVs xs ys
  | _, _ => false

/-- Elementwise Python `==` on lists. -/
def pyEqList : List Val → List Val → Bool
  | [], [] => true
  | x :: xs, y :: ys => pyEq x y && pyEqList xs ys
  | _, _ => false

/-- Entrywise Python `==` on dict entries. -/
def pyEqKVs : List (String × Val) → List (String × Val) → Bool
  | [], [] => true
  | (k, v) :: xs, (k', w) :: ys => k == k' && pyEq v w && pyEqKVs xs ys
  | _, _ => false

end

/-- Python `str()` of a scalar, as used by the f-strings that derive
document names; container reprs never reach a name in this code. -/
def pyStr : Val → String
  | .s str => str
  | .i n => toString n
  | .b true => "True"
  | .b false => "False"
  | .vnone => "None"
  | .l _ => "[...]"
  | .d _ => "{...}"

/-- Python `str.strip()`: drop whitespace from both ends. -/
def pyStrip (s : String) : String :=
  String.mk (((s.toList.dropWhile Char.isWhitespace).reverse.dropWhile
    Char.isWhitespace).reverse)

/-- The keys of a dict are distinct (always true of real Python dicts). -/
def nodupKeys (d : Dict) : Prop := (d.map Prod.fst).Nodup

instance (d : Dict) : Decidable (nodupKeys d) := by
  unfold nodupKeys; infer_instance

end ZVO

namespace ZVO

/-! ## Embedding of `zanaverse_onboarding/cli.py`: blueprint merging -/

/-- `"Sales Taxes and Charges Template"`, the one doctype with
special name-derivation rules. -/
def taxDT : String := "Sales Taxes and Charges Template"

/-- `_ensure_name` (cli.py): derive `name` from `title`, with the
tax-template composite `"{title} - {company}"` rule. -/
def _ensure_name (d0 : Dict) : Dict :=
  if truthy (dgetN d0 "name") then d0
  else
    let d := if truthy (dgetN d0 "title") then dset d0 "name" (dgetN d0 "title") else d0
    if pyEq (dgetN d "doctype") (.s taxDT) && truthy (dgetN d "title") then
      if truthy (dgetN d "company") then
        dset d "name" (.s (pyStr (dgetN d "title") ++ " - " ++ pyStr (dgetN d "company")))
      else dset d "name" (dgetN d "title")
    else d

/-- `_ensure_required_fields` (cli.py): back-fill a doctype's primary
field from `name`. -/
def _ensure_required_fields (d0 : Dict) : Dict :=
  let dt := dgetN d0 "doctype"
  let d := if pyEq dt (.s "Brand") then dsetdefault d0 "brand" (dgetN d0 "name") else d0
  let d := if pyEq dt (.s "Company") then dsetdefault d "company_name" (dgetN d "name") else d
  let d := if pyEq dt (.s taxDT) then dsetdefault d "title" (dgetN d "name") else d
  if pyEq dt (.s "Role Profile") then dsetdefault d "role_profile" (dgetN d "name") else d

/-- Python `==` on `(doctype, name)` merge keys. -/
def keyEq (a b : Val × Val) : Bool := pyEq a.1 b.1 && pyEq a.2 b.2

/-- `merged.get(key)` over the merge accumulator. -/
def mlookup : List ((Val × Val) × Dict) → (Val × Val) → Option Dict
  | [], _ => none
  | (k, v) :: rest, key => if keyEq k key then some v else mlookup rest key

/-- `merged[key] = v`: replace in place (Python dicts keep the key's
first-insertion position) or append. -/
def mset : List ((Val × Val) × Dict) → (Val × Val) → Dict → List ((Val × Val) × Dict)
  | [], key, v => [(key, v)]
  | (k, w) :: rest, key, v =>
      if keyEq k key then (k, v) :: rest else (k, w) :: mset rest key v

/-- `_ensure_required_fields(_ensure_name(dict(d)))`: the per-doc
normalization `_merge_docs` applies before merging. -/
def procDoc (dv : Val) : Dict := _ensure_required_fields (_ensure_name (asDict dv))

/-- One step of `_merge_docs`'s inner loop: normalize one raw doc and
merge it into the accumulator keyed by `(doctype, name)`. -/
def mergeStep (merged : List ((Val × Val) × Dict)) (dv : Val) :
    Except String (List ((Val × Val) × Dict)) :=
  let d := procDoc dv
  let doctype := dgetN d "doctype"
  let name := dgetN d "name"
  if !truthy doctype || !truthy name then
    .error "Each doc needs doctype+name (or title)"
  else
    let key := (doctype, name)
    let base := (mlookup merged key).getD []
    .ok (mset merged key (dmerge base d))

/-- `_merge_docs` (cli.py): merge the `docs` lists of the given file
dicts (in lexical filename order) keyed by `(doctype, name)`, later
files overriding earlier ones field by field; a doc with no resolvable
identity aborts the whole run (`frappe.throw`). -/
def _merge_docs (doc_sets : List Dict) : Except String (List Dict) := do
  let merged ← doc_sets.foldlM
    (fun merged ds => (asList (dgetN ds "docs")).foldlM mergeStep merged)
    ([] : List ((Val × Val) × Dict))
  pure (merged.map Prod.snd)

/-! ## Embedding of `zanaverse_onboarding/cli.py`: workspace compare
normalizers -/

/-- `_WS_KEEP` (cli.py).  In the source this is a Python `set`, whose
iteration order is unspecified; the model fixes the source-literal
order.  The dicts produced from it are only ever compared with Python
`==`, which ignores key order. -/
def _WS_KEEP : List String :=
  ["type", "label", "icon", "description", "hidden",
   "link_type", "link_to", "url", "doc_view", "kanban_board",
   "report_ref_doctype", "is_query_report", "dependencies",
   "only_for", "onboard", "color", "format", "stats_filter", "link_count"]

/-- `_WS_CHILD_TABLES` (cli.py). -/
def _WS_CHILD_TABLES : List String :=
  ["links", "shortcuts", "charts", "number_cards", "quick_lists", "custom_blocks"]

/-- `_coerce_bool_int` (cli.py). -/
def _coerce_bool_int : Val → Val
  | .b x => .i (if x then 1 else 0)
  | v => v

/-- `_is_trivial` (cli.py): `v in (None, "", 0, [], {})`, which uses
Python `==` against each element. -/
def _is_trivial (v : Val) : Bool :=
  pyEq v .vnone || pyEq v (.s "") || pyEq v (.i 0) || pyEq v (.l []) || pyEq v (.d [])

/-- One key's contribution to `_clean_row`: coerce booleans to 0/1,
drop trivial values, strip strings (dropping ones that become
empty). -/
def cleanEntry (row : Dict) (k : String) : Option (String × Val) :=
  if hasKey row k then
    let v := _coerce_bool_int (dgetN row k)
    if !_is_trivial v then
      match v with
      | .s str =>
          let str := pyStrip str
          if str = "" then none else some (k, Val.s str)
      | w => some (k, w)
    else none
  else none

/-- `_clean_row` (cli.py): keep only the allow-listed keys, coerce
booleans to 0/1, drop trivial values, strip strings (dropping ones
that become empty).  Building by `filterMap` over the distinct allowed
keys equals Python's insertion-order dict construction. -/
def _clean_row (row : Dict) : Dict :=
  _WS_KEEP.filterMap (cleanEntry row)

/-- The sixfold sort key of `_normalize_workspace_rows`: Python
`x.get(k, "")` tuples compared lexicographically.  Cleaned rows hold
strings at these keys (mixed types would raise `TypeError` in the
Python tuple comparison). -/
def rowKeyStr (x : Dict) (k : String) : String :=
  match dgetN x k with
  | .s str => str
  | _ => ""

/-- The sort key as a lexicographically ordered tuple. -/
def rowSortKey (x : Dict) :
    String ×ₗ String ×ₗ String ×ₗ String ×ₗ String ×ₗ String :=
  toLex (rowKeyStr x "type", toLex (rowKeyStr x "label",
    toLex (rowKeyStr x "link_type", toLex (rowKeyStr x "link_to",
      toLex (rowKeyStr x "doc_view", rowKeyStr x "url")))))

/-- Boolean comparison used by the stable sort of workspace rows. -/
def rowLe (x y : Dict) : Bool := decide (rowSortKey x ≤ rowSortKey y)

/-- Stable insertion into a sorted list (Python `list.sort` is stable;
any two stable sorts agree, so insertion sort is a faithful model). -/
def insertRow (x : Dict) : List Dict → List Dict
  | [] => [x]
  | y :: ys => if rowLe x y then x :: y :: ys else y :: insertRow x ys

/-- Stable sort of cleaned workspace rows. -/
def sortRows : List Dict → List Dict
  | [] => []
  | x :: xs => insertRow x (sortRows xs)

/-- `_normalize_workspace_rows` (cli.py): clean each row, drop rows
that became empty, sort by the fixed key tuple. -/
def _normalize_workspace_rows (rows : Val) : List Val :=
  let cleaned := (asList rows).map (fun r => _clean_row (asDict r))
  let cleaned := cleaned.filter (fun r => !r.isEmpty)
  (sortRows cleaned).map Val.d

/-- `_normalize_for_compare` (cli.py): drop the volatile `content`
blob; for Workspaces additionally drop `sequence_id` and
`onboarding_list` and canonicalize each present child table. -/
def _normalize_for_compare (d0 : Dict) : Dict :=
  let d := dpop d0 "content"
  if pyEq (dgetN d "doctype") (.s "Workspace") then
    let d := dpop d "sequence_id"
    let d := dpop d "onboarding_list"
    _WS_CHILD_TABLES.foldl
      (fun d t => if hasKey d t then dset d t (.l (_normalize_workspace_rows (dgetN d t))) else d)
      d
  else d

end ZVO

namespace ZVO

/-! ## Embedding of `zanaverse_onboarding/cli.py`: the persistence layer

`frappe.db` is an external collaborator; it is modelled as a list of
records queried by first match, which is how the spec describes the
identity-resolution queries (best-effort first-match lookups). -/

/-- A record matches a `(doctype, name)` identity (Python `==`). -/
def idMatches (r : Dict) (dt nm : Val) : Bool :=
  pyEq (dgetN r "doctype") dt && pyEq (dgetN r "name") nm

/-- `frappe.db.exists(doctype, name)`. -/
def dbExists (store : Store) (dt nm : Val) : Bool :=
  store.any (fun r => idMatches r dt nm)

/-- `frappe.get_doc(doctype, name)` / `frappe.db.get_value` by name:
first matching record. -/
def getDoc (store : Store) (dt nm : Val) : Option Dict :=
  store.find? (fun r => idMatches r dt nm)

/-- `frappe.db.get_value(doctype, filters, field)`: the field of the
first record matching all filters, `None` when there is none. -/
def getValueFilters (store : Store) (dt : String) (filters : Dict) (field : String) : Val :=
  match store.find?
      (fun r => pyEq (dgetN r "doctype") (.s dt)
        && filters.all (fun kv => pyEq (dgetN r kv.1) kv.2)) with
  | some r => dgetN r field
  | none => .vnone

/-- `frappe.db.get_value(doctype, name, field)`. -/
def getValueByName (store : Store) (dt : String) (nm : Val) (field : String) : Val :=
  match getDoc store (.s dt) nm with
  | some r => dgetN r field
  | none => .vnone

/-- `doc.save()` after in-place mutation: replace the first record
matching the identity. -/
def updateStore : Store → Val → Val → (Dict → Dict) → Store
  | [], _, _, _ => []
  | r :: rest, dt, nm, f =>
      if idMatches r dt nm then f r :: rest else r :: updateStore rest dt nm f

/-! ## Embedding of `zanaverse_onboarding/cli.py`: plan builder -/

/-- `_resolve_tax_template_name` (cli.py): best-effort lookup of the
persisted identity of a tax-charge template by exact
`(title[, company])` match, then by common name-pattern candidates. -/
def _resolve_tax_template_name (store : Store) (d : Dict) : Option Val :=
  if !pyEq (dgetN d "doctype") (.s taxDT) then none
  else
    let title := if truthy (dgetN d "title") then dgetN d "title" else dgetN d "name"
    if !truthy title then none
    else
      let company := dgetN d "company"
      let filters : Dict :=
        if truthy company then [("title", title), ("company", company)] else [("title", title)]
      let existing := getValueFilters store taxDT filters "name"
      if truthy existing then some existing
      else
        let candidates := [title] ++
          (if truthy company then
            [Val.s (pyStr title ++ " - " ++ pyStr company)] ++
              (let abbr := getValueByName store "Company" company "abbr"
               if truthy abbr then [Val.s (pyStr title ++ " - " ++ pyStr abbr)] else [])
          else [])
        candidates.find? (fun nm => dbExists store (.s taxDT) nm)

/-- A plan: the three-way `create` / `update` / `noop` classification. -/
structure Plan where
  create : List Dict
  update : List Dict
  noop : List Dict
deriving Repr

/-- The classification of a single document. -/
inductive PlanItem where
  | create (d : Dict)
  | update (e : Dict)
  | noop (e : Dict)
deriving Repr

/-- The per-field delta of `_plan_changes`: the desired (normalized)
fields, minus the identity fields, whose values differ (Python `!=`)
from the current normalized document. -/
def deltaOf (cur_n new_n : Dict) : Dict :=
  new_n.filter (fun kv =>
    kv.1 != "doctype" && kv.1 != "name" && !pyEq (dgetN cur_n kv.1) kv.2)

/-- The document is a tax-charge template. -/
def isTaxDoc (d : Dict) : Bool := pyEq (dgetN d "doctype") (.s taxDT)

/-- The persisted identity `_plan_changes` resolves for a document:
tax templates through `_resolve_tax_template_name`, everything else by
its own `name`. -/
def planIdentity (store : Store) (d0 : Dict) : Val :=
  if isTaxDoc d0 then
    match _resolve_tax_template_name store d0 with
    | some r => r
    | none => dgetN d0 "name"
  else dgetN d0 "name"

/-- The document as `_plan_changes` carries it onward: with `name`
rewritten to the resolved identity when the tax resolution succeeded. -/
def planDoc (store : Store) (d0 : Dict) : Dict :=
  if isTaxDoc d0 then
    match _resolve_tax_template_name store d0 with
    | some r => dset d0 "name" r
    | none => d0
  else d0

/-- The loop body of `_plan_changes` (cli.py) for one document:
resolve the true persisted identity (tax templates via
`_resolve_tax_template_name`), then classify as create (no existing
record), update (non-empty normalized delta) or noop. -/
def classifyDoc (store : Store) (d0 : Dict) : PlanItem :=
  let doctype := dgetN d0 "doctype"
  let name := planIdentity store d0
  let d := planDoc store d0
  match getDoc store doctype name with
  | none => .create d
  | some current =>
    let cur_n := _normalize_for_compare current
    let new_n := _normalize_for_compare d
    let delta := deltaOf cur_n new_n
    if !delta.isEmpty then
      .update ([("doctype", doctype), ("name", name)] ++ delta)
    else
      .noop [("doctype", doctype), ("name", name)]

/-- `_plan_changes` (cli.py): classify every document. -/
def _plan_changes (store : Store) (docs : List Dict) : Plan :=
  docs.foldl
    (fun plan d =>
      match classifyDoc store d with
      | .create d' => { plan with create := plan.create ++ [d'] }
      | .update e => { plan with update := plan.update ++ [e] }
      | .noop e => { plan with noop := plan.noop ++ [e] })
    ⟨[], [], []⟩

end ZVO

namespace ZVO

/-! ## Embedding of `zanaverse_onboarding/cli.py`: plan applier -/

mutual

/-- `frappe.as_json`, a plain JSON serializer; the exact rendering is
never compared (the JSON columns are dropped by the normalizer before
diffing), only that the result is a string. -/
def asJson : Val → String
  | .vnone => "null"
  | .b true => "true"
  | .b false => "false"
  | .i n => toString n
  | .s str => "\"" ++ str ++ "\""
  | .l xs => "[" ++ asJsonList xs ++ "]"
  | .d kvs => "\x7b" ++ asJsonKVs kvs ++ "\x7d"

/-- Comma-joined JSON of a list's elements. -/
def asJsonList : List Val → String
  | [] => ""
  | [x] => asJson x
  | x :: xs => asJson x ++ ", " ++ asJsonList xs

/-- Comma-joined JSON of a dict's entries. -/
def asJsonKVs : List (String × Val) → String
  | [] => ""
  | [(k, v)] => "\"" ++ k ++ "\": " ++ asJson v
  | (k, v) :: kvs => "\"" ++ k ++ "\": " ++ asJson v ++ ", " ++ asJsonKVs kvs

end

/-- `_jsonify_array` (cli.py): force a value into a JSON string that
represents an array (never null-ish). -/
def _jsonify_array (value : Val) : Val :=
  match value with
  | .s str =>
      let v := pyStrip str
      if v.startsWith "[" && v.endsWith "]" then .s v
      else if v = "" then .s "[]"
      else .s (asJson (.l [.s v]))
  | .l xs => .s (asJson (.l xs))
  | v => if pyEq v .vnone || pyEq v (.d []) then .s "[]" else .s (asJson (.l [v]))

/-- `_coerce_workspace_json_in_payload` (cli.py): for Workspace
payloads, force the `content` and `onboarding_list` fields (when
present) to JSON strings. -/
def _coerce_workspace_json_in_payload (payload : Dict) : Dict :=
  if pyEq (dgetN payload "doctype") (.s "Workspace") then
    ["content", "onboarding_list"].foldl
      (fun p k => if hasKey p k then dset p k (_jsonify_array (dgetN p k)) else p)
      payload
  else payload

/-- Errors surfaced by the persistence layer during apply. -/
inductive ApplyErr where
  | duplicateEntry
  | doesNotExist
deriving Repr, DecidableEq

/-- Modelled from the spec: the external persistence layer derives a
composite name for a tax-charge template at insert time (the blueprint
omits the identity field for these; spec §4.4 and Example 2 describe
the `"{title} - {company}"` style result). -/
def autonameTax (payload : Dict) : Val :=
  let title := dgetN payload "title"
  if truthy (dgetN payload "company") then
    .s (pyStr title ++ " - " ++ pyStr (dgetN payload "company"))
  else .s (pyStr title)

/-- The name the persistence layer assigns at insert: the provided
`name` when one is present, else the derived tax-template name. -/
def insertName (payload : Dict) : Val :=
  if truthy (dgetN payload "name") then dgetN payload "name"
  else if pyEq (dgetN payload "doctype") (.s taxDT) then autonameTax payload
  else dgetN payload "name"

/-- `doc.insert()`: append the record with its assigned name, or raise
`DuplicateEntryError` when a record with that identity already exists. -/
def insertDoc (store : Store) (payload : Dict) : Except ApplyErr (Store × Val) :=
  let nm := insertName payload
  if dbExists store (dgetN payload "doctype") nm then .error .duplicateEntry
  else .ok (store ++ [dset payload "name" nm], nm)

/-- The field-setting loops of `_apply_plan`: set every non-identity
field of `src` on the fetched document; when `wsJson` is set (the
update loop on a Workspace), the `content`/`onboarding_list` values
are forced through `_jsonify_array`. -/
def updateFieldsFrom (doc : Dict) (src : Dict) (wsJson : Bool) : Dict :=
  src.foldl
    (fun doc kv =>
      if kv.1 == "doctype" || kv.1 == "name" then doc
      else if wsJson && (kv.1 == "content" || kv.1 == "onboarding_list") then
        dset doc kv.1 (_jsonify_array kv.2)
      else dset doc kv.1 kv.2)
    doc

/-- The insert payload the create loop builds from a plan entry:
`dict(d)` with the identity field popped for tax templates, then the
Workspace JSON-field coercion. -/
def createPayload (d : Dict) : Dict :=
  _coerce_workspace_json_in_payload (if isTaxDoc d then dpop d "name" else d)

/-- The create loop of `_apply_plan` (cli.py): insert each document
(tax templates with the identity field omitted, Workspace JSON fields
coerced); on `DuplicateEntryError`, tax templates re-resolve the
identity and fall back to an in-place field-by-field update, any other
doctype re-raises.  Returns the store, the `created` pairs and the
`updated` pairs recorded by the fallback. -/
def applyCreates : Store → List Dict → Except ApplyErr (Store × List (Val × Val) × List (Val × Val))
  | store, [] => .ok (store, [], [])
  | store, d :: rest =>
    let payload := createPayload d
    match insertDoc store payload with
    | .ok (store', nm) => do
        let (store'', created, fb) ← applyCreates store' rest
        .ok (store'', (dgetN payload "doctype", nm) :: created, fb)
    | .error e =>
        if isTaxDoc d then
          match _resolve_tax_template_name store d with
          | some existing => do
              let store' := updateStore store (dgetN payload "doctype") existing
                (fun doc => updateFieldsFrom doc d false)
              let (store'', created, fb) ← applyCreates store' rest
              .ok (store'', created, (dgetN payload "doctype", existing) :: fb)
          | none => .error e
        else .error e

/-- The update loop of `_apply_plan` (cli.py): fetch each record by
its planned identity (`frappe.get_doc` raises when it is gone), set
only the changed fields (Workspace JSON fields coerced), save. -/
def applyUpdates : Store → List Dict → Except ApplyErr (Store × List (Val × Val))
  | store, [] => .ok (store, [])
  | store, e :: rest =>
    match getDoc store (dgetN e "doctype") (dgetN e "name") with
    | none => .error .doesNotExist
    | some _ =>
      let wsJson := pyEq (dgetN e "doctype") (.s "Workspace")
      let store' := updateStore store (dgetN e "doctype") (dgetN e "name")
        (fun doc => updateFieldsFrom doc e wsJson)
      do
        let (store'', updated) ← applyUpdates store' rest
        .ok (store'', (dgetN e "doctype", dgetN e "name") :: updated)

/-- What `_apply_plan` returns: the `(doctype, name)` pairs it created
and updated. -/
structure Applied where
  created : List (Val × Val)
  updated : List (Val × Val)
deriving Repr

/-- `_apply_plan` (cli.py): run the create loop then the update loop;
the single `frappe.db.commit()` at its end is a persistence-layer
event (see the commit-trace model below) and does not change the
store's contents. -/
def _apply_plan (store : Store) (plan : Plan) : Except ApplyErr (Store × Applied) := do
  let (s1, created, fb) ← applyCreates store plan.create
  let (s2, updated) ← applyUpdates s1 plan.update
  .ok (s2, ⟨created, fb ++ updated⟩)

end ZVO

namespace ZVO

/-! ## Embedding of `zanaverse_onboarding/permissions.py`: policy store -/

/-- One default `pqc_doctypes` entry of `_load_policy`'s in-code
defaults. -/
def defaultPqcCfg : Val :=
  .d [("enabled", .b true), ("company_field", .s "company"), ("brand_field", .s "brand")]

/-- The in-code defaults of `_load_policy` (permissions.py). -/
def defaultPolicy : Dict :=
  [("sensitive_roles", .d [("Employee", .l [.s "HR Manager", .s "HR Assistant"])]),
   ("strict_default_deny", .b false),
   ("pqc_doctypes", .d
     [("Lead", defaultPqcCfg), ("Opportunity", defaultPqcCfg),
      ("Customer", defaultPqcCfg), ("Quotation", defaultPqcCfg),
      ("Sales Order", defaultPqcCfg), ("Project", defaultPqcCfg),
      ("Task", defaultPqcCfg), ("Employee", defaultPqcCfg),
      ("Job Applicant", defaultPqcCfg), ("Job Opening", defaultPqcCfg)])]

/-- One layering step of `_load_policy` (permissions.py): shallow-merge
the file's top-level keys, then run the deep-merge loop for
`pqc_doctypes` and `sensitive_roles` exactly as written (reading
`merged.get(k, {})` after the shallow merge has already run). -/
def layerPolicy (merged data : Dict) : Dict :=
  let m1 := dmerge merged data
  ["pqc_doctypes", "sensitive_roles"].foldl
    (fun m k =>
      if hasKey data k then
        dset m k (.d (dmerge (asDict (dgetN m k)) (asDict (dgetN data k))))
      else m)
    m1

/-- `_load_policy` (permissions.py): in-code defaults layered with each
existing, successfully parsed policy file in order (global file then
client file).  Malformed/unreadable layers are logged and skipped by
the code, hence simply absent from `files`. -/
def _load_policy (files : List Dict) : Dict :=
  files.foldl layerPolicy defaultPolicy

/-- `_policy_for_doctype` (permissions.py):
`(pol.get("pqc_doctypes") or {}).get(doctype, {}) or {}`. -/
def _policy_for_doctype (pol : Dict) (doctype : String) : Dict :=
  let m := if truthy (dgetN pol "pqc_doctypes") then asDict (dgetN pol "pqc_doctypes") else []
  match dget m doctype with
  | some c => if truthy c then asDict c else []
  | none => []

/-- `_strict_default_deny` (permissions.py). -/
def _strict_default_deny (pol : Dict) : Bool := truthy (dgetN pol "strict_default_deny")

/-! ## Embedding of `zanaverse_onboarding/permissions.py`: PQC builders -/

/-- The per-request context the predicate builders consult: the acting
user, their cached roles (`_roles_for`), their `user_scope` allow-list
sets (`_allowed` over User Permission), and the schema's field-presence
oracle (`frappe.get_meta(...).has_field`).  All are external lookups,
fixed for one request. -/
structure Ctx where
  user : String
  roles : List String
  companies : List String
  brands : List String
  hasField : String → String → Bool

/-- The bypass role set `set(pol.get("pqc_bypass_roles") or [])`.
Non-string entries can never intersect the user's string role set and
are dropped; this changes neither the emptiness test's outcome nor the
intersection. -/
def bypassRoles (pol : Dict) : List String :=
  (asList (dgetN pol "pqc_bypass_roles")).filterMap
    (fun v => match v with | .s str => some str | _ => none)

/-- `_pqc_bypass` (permissions.py): the user holds a bypass role. -/
def _pqc_bypass (pol : Dict) (ctx : Ctx) : Bool :=
  let bypass := bypassRoles pol
  if bypass.isEmpty then false
  else ctx.roles.any (fun r => bypass.contains r)

/-- `_has_field` (permissions.py): falsy field names are never
present. -/
def _has_field (ctx : Ctx) (doctype fieldname : String) : Bool :=
  if fieldname = "" then false else ctx.hasField doctype fieldname

/-- `frappe.db.escape`, modelled as plain SQL quoting. -/
def escapeSql (str : String) : String := "'" ++ str ++ "'"

/-- Python `sep.join(xs)`. -/
def joinSep (sep : String) : List String → String
  | [] => ""
  | [x] => x
  | x :: xs => x ++ sep ++ joinSep sep xs

/-- `_inlist` (permissions.py). -/
def _inlist (values : List String) : String :=
  if values.isEmpty then "()"
  else "(" ++ joinSep ", " (values.map escapeSql) ++ ")"

/-- `pqc_generic` (permissions.py): AND together the company and brand
`IN` constraints that apply; with no constraint, `1=0` under
`strict_default_deny`, else unrestricted. -/
def pqc_generic (pol : Dict) (ctx : Ctx) (doctype company_field brand_field : String) : String :=
  if _pqc_bypass pol ctx then ""
  else
    let conds :=
      (if !ctx.companies.isEmpty && _has_field ctx doctype company_field then
        ["`tab" ++ doctype ++ "`.`" ++ company_field ++ "` IN " ++ _inlist ctx.companies]
      else []) ++
      (if !ctx.brands.isEmpty && _has_field ctx doctype brand_field then
        ["`tab" ++ doctype ++ "`.`" ++ brand_field ++ "` IN " ++ _inlist ctx.brands]
      else [])
    if !conds.isEmpty then joinSep " AND " conds
    else if _strict_default_deny pol then "1=0" else ""

/-- `cfg.get(k) or default` for the configured field names. -/
def orDefaultField (cfg : Dict) (k dflt : String) : String :=
  if truthy (dgetN cfg k) then pyStr (dgetN cfg k) else dflt

/-- `_pqc_base_from_policy` (permissions.py). -/
def _pqc_base_from_policy (pol : Dict) (ctx : Ctx) (doctype : String) : String :=
  let cfg := _policy_for_doctype pol doctype
  if cfg.isEmpty || !truthy (dgetN cfg "enabled") then ""
  else
    pqc_generic pol ctx doctype
      (orDefaultField cfg "company_field" "company")
      (orDefaultField cfg "brand_field" "brand")

/-- `_exists_project_membership` (permissions.py). -/
def _exists_project_membership (user : String) : String :=
  "exists(\n        select 1\n        from `tabProject User` pu\n        where pu.parent = `tabProject`.`name`\n          and pu.parenttype = 'Project'\n          and pu.user = " ++ escapeSql user ++ "\n    )"

/-- The project-membership exists-clause of `pqc_task`
(permissions.py), joined through the task's project. -/
def taskMembersSql (user : String) : String :=
  "exists(\n        select 1\n        from `tabProject User` pu\n        join `tabProject` p on p.name = `tabTask`.`project`\n        where pu.parent = p.name\n          and pu.parenttype = 'Project'\n          and pu.user = " ++ escapeSql user ++ "\n    )"

/-- The direct-assignment exists-clause of `pqc_task`
(permissions.py): a ToDo referencing this task allocated to the user. -/
def taskAssignedSql (user : String) : String :=
  "exists(\n        select 1\n        from `tabToDo` td\n        where td.reference_type = 'Task'\n          and td.reference_name = `tabTask`.`name`\n          and td.allocated_to = " ++ escapeSql user ++ "\n    )"

/-- `pqc_project` (permissions.py). -/
def pqc_project (pol : Dict) (ctx : Ctx) : String :=
  if _pqc_bypass pol ctx then ""
  else
    let base := _pqc_base_from_policy pol ctx "Project"
    let members := _exists_project_membership ctx.user
    if base != "" && members != "" then "((" ++ base ++ ") OR " ++ members ++ ")"
    else if members != "" then members
    else base

/-- `pqc_task` (permissions.py). -/
def pqc_task (pol : Dict) (ctx : Ctx) : String :=
  if _pqc_bypass pol ctx then ""
  else
    let base := _pqc_base_from_policy pol ctx "Task"
    let members := taskMembersSql ctx.user
    let assigned := taskAssignedSql ctx.user
    let conds := [base, members, assigned].filter (fun c => c != "")
    if conds.isEmpty then ""
    else joinSep " OR " (conds.map (fun c => "(" ++ c ++ ")"))

/-! ## Embedding of `_autogen_pqc_wrappers` (permissions.py) -/

/-- One character of the identifier sanitization of `_slug_for_fn`. -/
def sanitizeChar (c : Char) : Char :=
  if ('a' ≤ c && c ≤ 'z') || ('0' ≤ c && c ≤ '9') || c = '_' then c else '_'

/-- Squash runs of underscores (`re.sub("_+", "_", s)`). -/
def squashUnderscores : List Char → List Char
  | [] => []
  | c :: rest =>
    match squashUnderscores rest with
    | [] => [c]
    | c' :: tail => if c = '_' && c' = '_' then c' :: tail else c :: c' :: tail

/-- `_slug_for_fn` (permissions.py): lower-case, strip, spaces and
non-identifier characters to underscores, squash and trim underscores,
prefix `pqc_` (the doctype names here are ASCII, so `String.toLower`
matches Python `str.lower`). -/
def _slug_for_fn (doctype : String) : String :=
  let s := (pyStrip doctype.toLower).replace " " "_"
  let cs := squashUnderscores (s.toList.map sanitizeChar)
  let cs := (((cs.dropWhile (· = '_')).reverse.dropWhile (· = '_')).reverse)
  "pqc_" ++ (if cs.isEmpty then "unknown" else String.mk cs)

/-- A function bound in the permissions module namespace: one of the
module's own `def`s, or a generated policy wrapper. -/
inductive FnDef where
  | bespoke
  | generated (doctype : String)
deriving Repr, DecidableEq

/-- The module namespace: attribute name to binding, in definition
order. -/
abbrev ModuleNS := List (String × FnDef)

/-- `hasattr(mod, name)`. -/
def modHasAttr (m : ModuleNS) (nm : String) : Bool := m.any (fun e => e.1 == nm)

/-- `getattr(mod, name)`: first (and only) binding. -/
def modGet : ModuleNS → String → Option FnDef
  | [], _ => none
  | e :: rest, nm => if e.1 = nm then some e.2 else modGet rest nm

/-- The `pqc_*` functions defined in permissions.py before
`_autogen_pqc_wrappers()` runs at the end of the module body.  The
module's other attributes (imports, helpers, `has_permission_*`) never
collide with a generated `pqc_*` name and are omitted. -/
def permissionsModule : ModuleNS :=
  [("pqc_lead", .bespoke), ("pqc_opportunity", .bespoke), ("pqc_customer", .bespoke),
   ("pqc_quotation", .bespoke), ("pqc_sales_order", .bespoke),
   ("pqc_job_applicant", .bespoke), ("pqc_job_opening", .bespoke),
   ("pqc_employee", .bespoke), ("pqc_project", .bespoke), ("pqc_task", .bespoke)]

/-- `_autogen_pqc_wrappers` (permissions.py): for every enabled policy
doctype, bind a generated wrapper under `_slug_for_fn(dt)` unless the
module already has an attribute of that name (`hasattr` guard —
explicit wrappers are never overridden). -/
def _autogen_pqc_wrappers (pol : Dict) (mod : ModuleNS) : ModuleNS :=
  (asDict (dgetN pol "pqc_doctypes")).foldl
    (fun m entry =>
      if truthy entry.2 && truthy (dgetN (asDict entry.2) "enabled") then
        let fn := _slug_for_fn entry.1
        if modHasAttr m fn then m else m ++ [(fn, .generated entry.1)]
      else m)
    mod

end ZVO

namespace ZVO

/-! ## Persistence-event trace of a provisioning run (cli.py)

The claims about commit discipline are about *when*
`frappe.db.commit()` runs during `provision()`.  The trace model below
records, in program order, every document write and every
`frappe.db.commit()` call made by the non-dry-run path of
`provision()` (cli.py lines 1114–1144) and by the helpers it calls.
Workspace hardening stays at its default (off) and the optional
`clone_roles_from_yaml` call is commented out in the source; neither
contributes events. -/

/-- A persistence-layer event: a document write or a commit. -/
inductive Ev where
  | write (doctype name : String)
  | commit
deriving Repr, DecidableEq

/-- Events of `_apply_plan` (cli.py): one write per created document,
one write per updated document, then the single `frappe.db.commit()`
at the end of the function. -/
def applyPlanTrace (plan : Plan) : List Ev :=
  plan.create.map (fun d => .write (pyStr (dgetN d "doctype")) (pyStr (dgetN d "name"))) ++
  plan.update.map (fun e => .write (pyStr (dgetN e "doctype")) (pyStr (dgetN e "name"))) ++
  [.commit]

/-- Events of `_ensure_baselines` (cli.py): when the "Warehouse Type"
doctype exists, seed the missing warehouse types and commit (the
commit is inside the `if`, unconditional on whether anything was
missing). -/
def ensureBaselinesTrace (warehouseTypeDoctype : Bool) (missing : List String) : List Ev :=
  if warehouseTypeDoctype then
    missing.map (fun wt => .write "Warehouse Type" wt) ++ [.commit]
  else []

/-- Events of `_apply_role_profiles_from_yaml` (cli.py): one save per
profile, then the unconditional `frappe.db.commit()` before the
function returns. -/
def roleProfilesTrace (profiles : List String) : List Ev :=
  profiles.map (fun p => .write "Role Profile" p) ++ [.commit]

/-- Events of `_apply_module_profiles_from_yaml` as `provision()`
actually calls it: the module redefines the function near the end of
cli.py as an intentional override (`# noqa: F811`) that immediately
returns — Module Profiles are deprecated there — so the call resolves
to a no-op that never writes and never commits, whatever the YAML file
holds.  (The first definition earlier in the file, whose body upserts
and commits, is shadowed dead code.) -/
def moduleProfilesTrace (_ : Option (List String)) : List Ev := []

/-- Events of `apply_letterheads` (cli.py) with `dry_run=False` as
`provision()` calls it: nothing when `letterheads.yaml` is missing or
empty (`not conf` returns early); otherwise the upserts followed by
the `frappe.db.commit()` at the end. -/
def letterheadsTrace : Option (List String) → List Ev
  | none => []
  | some rows => rows.map (fun r => .write "Letter Head" r) ++ [.commit]

/-- The inputs that determine the write/commit events of one
non-dry-run `provision()` call. -/
structure ProvisionInput where
  plan : Plan
  warehouseTypeDoctype : Bool
  missingWarehouseTypes : List String
  moduleDefs : List String
  companies : List String
  brands : List String
  brandCustomFields : List String
  roleProfiles : List String
  moduleProfiles : Option (List String)
  users : List String
  letterheads : Option (List String)

/-- The persistence-event trace of the non-dry-run apply path of
`provision()` (cli.py): `_ensure_baselines`,
`_ensure_modules_for_docs`, `_apply_plan`,
`_apply_companies_from_yaml`, `_apply_brands_from_yaml`,
`_apply_brand_custom_fields_if_needed`,
`_apply_role_profiles_from_yaml`, `_apply_module_profiles_from_yaml`,
`_apply_users_from_yaml`, `apply_letterheads`, and the final
`frappe.db.commit()` of `provision()` itself, in that order.  (The
dry-run path performs no writes and no commit.) -/
def provisionApplyTrace (inp : ProvisionInput) : List Ev :=
  ensureBaselinesTrace inp.warehouseTypeDoctype inp.missingWarehouseTypes ++
  inp.moduleDefs.map (fun m => .write "Module Def" m) ++
  applyPlanTrace inp.plan ++
  inp.companies.map (fun c => .write "Company" c) ++
  inp.brands.map (fun b => .write "Brand" b) ++
  inp.brandCustomFields.map (fun f => .write "Custom Field" f) ++
  roleProfilesTrace inp.roleProfiles ++
  moduleProfilesTrace inp.moduleProfiles ++
  inp.users.map (fun u => .write "User" u) ++
  letterheadsTrace inp.letterheads ++
  [.commit]

/-- Count of commits in a trace. -/
def commitCount (tr : List Ev) : Nat := tr.countP (fun e => e == Ev.commit)

end ZVO

namespace ZVO

/-! ## Basic lemmas about the dict and value model -/

mutual

theorem pyEq_refl : (v : Val) → pyEq v v = true
  | .vnone => rfl
  | .b x => by simp [pyEq]
  | .i n => by simp [pyEq]
  | .s str => by simp [pyEq]
  | .l xs => by simpa [pyEq] using pyEqList_refl xs
  | .d kvs => by simpa [pyEq] using pyEqKVs_refl kvs

theorem pyEqList_refl : (xs : List Val) → pyEqList xs xs = true
  | [] => rfl
  | x :: xs => by simp [pyEqList, pyEq_refl x, pyEqList_refl xs]

theorem pyEqKVs_refl : (kvs : List (String × Val)) → pyEqKVs kvs kvs = true
  | [] => rfl
  | (k, v) :: rest => by simp [pyEqKVs, pyEq_refl v, pyEqKVs_refl rest]

end

theorem pyEq_of_eq {a b : Val} (h : a = b) : pyEq a b = true := h ▸ pyEq_refl a

/-- Only a string is Python-equal to a string. -/
theorem pyEq_s_iff (v : Val) (t : String) : pyEq v (.s t) = true ↔ v = .s t := by
  cases v <;> simp [pyEq]

theorem dget_dset_self (d : Dict) (k : String) (v : Val) :
    dget (dset d k v) k = some v := by
  induction d with
  | nil => simp [dset, dget]
  | cons kv rest ih =>
    obtain ⟨k', v'⟩ := kv
    by_cases h : k' = k <;> simp [dset, dget, h, ih]

theorem dget_dset_ne (d : Dict) (k k' : String) (v : Val) (h : k' ≠ k) :
    dget (dset d k v) k' = dget d k' := by
  induction d with
  | nil => simp [dset, dget, Ne.symm h]
  | cons kv rest ih =>
    obtain ⟨k0, v0⟩ := kv
    by_cases h0 : k0 = k
    · subst h0
      simp [dset, dget, Ne.symm h]
    · by_cases h1 : k0 = k' <;> simp [dset, dget, h0, h1, ih, h]

theorem dgetN_dset_self (d : Dict) (k : String) (v : Val) :
    dgetN (dset d k v) k = v := by simp [dgetN, dget_dset_self]

theorem dgetN_dset_ne (d : Dict) (k k' : String) (v : Val) (h : k' ≠ k) :
    dgetN (dset d k v) k' = dgetN d k' := by simp [dgetN, dget_dset_ne d k k' v h]

theorem dget_dpop_self (d : Dict) (k : String) : dget (dpop d k) k = none := by
  induction d with
  | nil => simp [dpop, dget]
  | cons kv rest ih =>
    obtain ⟨k0, v0⟩ := kv
    by_cases h : k0 = k <;> simp_all [dpop, dget, List.filter]

theorem dget_dpop_ne (d : Dict) (k k' : String) (h : k' ≠ k) :
    dget (dpop d k) k' = dget d k' := by
  induction d with
  | nil => simp [dpop]
  | cons kv rest ih =>
    obtain ⟨k0, v0⟩ := kv
    by_cases h0 : k0 = k <;> by_cases h1 : k0 = k' <;>
      simp_all [dpop, dget, List.filter]

theorem dgetN_dpop (d : Dict) (k k' : String) :
    dgetN (dpop d k) k' = if k' = k then .vnone else dgetN d k' := by
  by_cases h : k' = k
  · simp [h, dgetN, dget_dpop_self]
  · simp [h, dgetN, dget_dpop_ne d k k' h]

theorem hasKey_dset (d : Dict) (k k' : String) (v : Val) :
    hasKey (dset d k v) k' = if k' = k then true else hasKey d k' := by
  by_cases h : k' = k
  · simp [h, hasKey, dget_dset_self]
  · simp [h, hasKey, dget_dset_ne d k k' v h]

theorem hasKey_dpop (d : Dict) (k k' : String) :
    hasKey (dpop d k) k' = if k' = k then false else hasKey d k' := by
  by_cases h : k' = k
  · simp [h, hasKey, dget_dpop_self]
  · simp [h, hasKey, dget_dpop_ne d k k' h]

end ZVO

namespace ZVO

/-! ## C4, C6: the generic predicate and the bypass short-circuit -/

/-- A nonempty bypass-role membership makes `_pqc_bypass` true. -/
theorem pqc_bypass_of_role (pol : Dict) (ctx : Ctx) (r : String)
    (hr : r ∈ ctx.roles) (hb : r ∈ bypassRoles pol) :
    _pqc_bypass pol ctx = true := by
  unfold _pqc_bypass
  have h1 : (bypassRoles pol).isEmpty = false := by
    cases h : bypassRoles pol with
    | nil => rw [h] at hb; exact absurd hb (List.not_mem_nil _)
    | cons a l => rfl
  simp only [h1, Bool.false_eq_true, if_false]
  simp only [List.any_eq_true]
  exact ⟨r, hr, by simpa using hb⟩

/-- C4: for every user holding at least one role in the policy's
`pqc_bypass_roles` set, the generic policy-driven predicate and the
bespoke Project and Task predicates all return the empty string (no
restriction), regardless of the user's company/brand scope or the rest
of the policy configuration. -/
theorem c4_bypass_short_circuit (pol : Dict) (ctx : Ctx)
    (doctype company_field brand_field : String) (r : String)
    (hr : r ∈ ctx.roles) (hb : r ∈ bypassRoles pol) :
    pqc_generic pol ctx doctype company_field brand_field = "" ∧
    pqc_project pol ctx = "" ∧ pqc_task pol ctx = "" := by
  have hbp := pqc_bypass_of_role pol ctx r hr hb
  refine ⟨?_, ?_, ?_⟩ <;> simp [pqc_generic, pqc_project, pqc_task, hbp]

/-- Concrete policy for the C4 witness: one bypass role configured,
strict deny on, to show the bypass wins over everything. -/
def c4pol : Dict :=
  [("pqc_bypass_roles", .l [.s "System Manager"]), ("strict_default_deny", .b true)]

/-- Concrete context for the C4 witness: the user holds the bypass
role and has no scope at all. -/
def c4ctx : Ctx := ⟨"user@example.com", ["System Manager"], [], [], fun _ _ => false⟩

/-- Witness for C4 at a concrete policy and user. -/
theorem c4_bypass_short_circuit_witness :
    pqc_generic c4pol c4ctx "Lead" "company" "brand" = "" ∧
    pqc_project c4pol c4ctx = "" ∧ pqc_task c4pol c4ctx = "" :=
  c4_bypass_short_circuit c4pol c4ctx "Lead" "company" "brand" "System Manager"
    (by simp [c4ctx]) (by simp [c4pol, bypassRoles, dgetN, dget, asList])

/-- C6: for every entity type and non-bypass user, whenever neither a
company condition nor a brand condition is produced (the scope set is
empty or the schema lacks the configured field, on both sides — in
particular when the entity has neither configured field), the generic
predicate is the constant-false `"1=0"` when `strict_default_deny` is
set and the empty string (unrestricted) otherwise. -/
theorem c6_strict_default_deny (pol : Dict) (ctx : Ctx)
    (doctype company_field brand_field : String)
    (hb : _pqc_bypass pol ctx = false)
    (hc : ctx.companies.isEmpty = true ∨ _has_field ctx doctype company_field = false)
    (hf : ctx.brands.isEmpty = true ∨ _has_field ctx doctype brand_field = false) :
    pqc_generic pol ctx doctype company_field brand_field =
      (if _strict_default_deny pol then "1=0" else "") := by
  unfold pqc_generic
  rw [hb]
  rcases hc with hc | hc <;> rcases hf with hf | hf <;> simp [hc, hf]

/-- Concrete policy for the C6 witness: strict default deny enabled,
no bypass roles. -/
def c6pol : Dict := [("strict_default_deny", .b true)]

/-- Concrete context for the C6 witness: user with scope values but a
schema that has no configured fields (`has_field` false everywhere). -/
def c6ctx : Ctx := ⟨"user@example.com", ["Employee"], ["Acme"], ["B1"], fun _ _ => false⟩

/-- Witness for C6 at a concrete policy and entity: the predicate is
`1=0`. -/
theorem c6_strict_default_deny_witness :
    pqc_generic c6pol c6ctx "Custom Entity" "company" "brand" = "1=0" := by
  have h := c6_strict_default_deny c6pol c6ctx "Custom Entity" "company" "brand"
    rfl (Or.inr rfl) (Or.inr rfl)
  simpa using h

end ZVO

namespace ZVO

/-! ## C5: composition of the Task predicate -/

/-- A string starting with a nonempty literal is nonempty. -/
theorem append3_ne_empty (pre mid post : String) (h : pre.length ≠ 0) :
    (pre ++ mid ++ post) ≠ "" := by
  intro hc
  have hlen := congrArg String.length hc
  rw [String.length_append, String.length_append] at hlen
  simp only [String.length_empty] at hlen
  omega

/-- The Task membership exists-clause is never the empty string. -/
theorem taskMembersSql_ne_empty (u : String) : taskMembersSql u ≠ "" := by
  unfold taskMembersSql
  exact append3_ne_empty _ _ _ (by decide)

/-- The Task assignment exists-clause is never the empty string. -/
theorem taskAssignedSql_ne_empty (u : String) : taskAssignedSql u ≠ "" := by
  unfold taskAssignedSql
  exact append3_ne_empty _ _ _ (by decide)

/-- C5 (amended): for a non-bypass user the Task predicate is the OR
of the generic predicate (omitted exactly when it is empty) with the
project-membership and direct-assignment existence clauses — both of
which are always present in the predicate string, whatever the user's
actual memberships or assignments (their truth is decided by the
database at query time, not during predicate construction). -/
theorem c5_task_or_composition (pol : Dict) (ctx : Ctx)
    (hb : _pqc_bypass pol ctx = false) :
    (_pqc_base_from_policy pol ctx "Task" = "" →
      pqc_task pol ctx =
        "(" ++ taskMembersSql ctx.user ++ ")" ++ " OR " ++
          ("(" ++ taskAssignedSql ctx.user ++ ")")) ∧
    (_pqc_base_from_policy pol ctx "Task" ≠ "" →
      pqc_task pol ctx =
        "(" ++ _pqc_base_from_policy pol ctx "Task" ++ ")" ++ " OR " ++
          ("(" ++ taskMembersSql ctx.user ++ ")" ++ " OR " ++
            ("(" ++ taskAssignedSql ctx.user ++ ")"))) := by
  have hm := taskMembersSql_ne_empty ctx.user
  have ha := taskAssignedSql_ne_empty ctx.user
  have hm' : (taskMembersSql ctx.user != "") = true := bne_iff_ne.mpr hm
  have ha' : (taskAssignedSql ctx.user != "") = true := bne_iff_ne.mpr ha
  constructor
  · intro hbase
    have hbase' : (_pqc_base_from_policy pol ctx "Task" != "") = false := by
      simp [hbase]
    unfold pqc_task
    rw [hb]
    simp only [List.filter, hbase', hm', ha']
    simp [joinSep]
  · intro hbase
    have hbase' : (_pqc_base_from_policy pol ctx "Task" != "") = true := bne_iff_ne.mpr hbase
    unfold pqc_task
    rw [hb]
    simp only [List.filter, hbase', hm', ha']
    simp [joinSep]

/-- Context of spec Example 3: a user with no company/brand scope (the
membership and assignment rows live in the database, not in the
predicate builder's inputs). -/
def c5ctx : Ctx := ⟨"user@x", ["Employee"], [], [], fun _ _ => true⟩

/-- C5 counterexample: under the default policy (Task enabled, no
bypass roles, strict deny off) and a user with no company/brand scope,
the Task predicate is the OR of *both* existence clauses — it is not
the assignment-existence clause alone, however the user's membership
rows look. -/
theorem c5_counterexample :
    pqc_task (_load_policy []) c5ctx =
      "(" ++ taskMembersSql "user@x" ++ ")" ++ " OR " ++
        ("(" ++ taskAssignedSql "user@x" ++ ")") ∧
    pqc_task (_load_policy []) c5ctx ≠ "(" ++ taskAssignedSql "user@x" ++ ")" ∧
    pqc_task (_load_policy []) c5ctx ≠ taskAssignedSql "user@x" := by
  refine ⟨rfl, ?_, ?_⟩ <;> decide

/-- Witness for the amended C5 at the Example-3 context. -/
theorem c5_task_or_composition_witness :
    pqc_task (_load_policy []) c5ctx =
      "(" ++ taskMembersSql "user@x" ++ ")" ++ " OR " ++
        ("(" ++ taskAssignedSql "user@x" ++ ")") :=
  (c5_task_or_composition (_load_policy []) c5ctx rfl).1 rfl

end ZVO

namespace ZVO

/-! ## C7: policy layering -/

/-- A tenant policy file that supplies a `pqc_doctypes` entry for one
doctype only (Lead), as in the spec's layering scenario. -/
def c7file : Dict :=
  [("pqc_doctypes", .d
    [("Lead", .d [("enabled", .b true), ("company_field", .s "company"),
                  ("brand_field", .s "brand")])])]

/-- C7: the defaults carry ten `pqc_doctypes` entries (Task among
them); layering a tenant file that supplies only a Lead entry leaves a
policy whose `pqc_doctypes` holds *only* Lead — the Task entry (and
every other default entry) is gone, because the shallow top-level
merge replaces `merged["pqc_doctypes"]` before the deep-merge loop
reads `merged.get(k)`, so that loop merges the file's map with itself. -/
theorem c7_policy_layering_drops_entries :
    dget (asDict (dgetN (_load_policy []) "pqc_doctypes")) "Task" = some defaultPqcCfg ∧
    dget (asDict (dgetN (_load_policy [c7file]) "pqc_doctypes")) "Task" = none ∧
    (asDict (dgetN (_load_policy [c7file]) "pqc_doctypes")).length = 1 :=
  ⟨rfl, rfl, rfl⟩

/-! ## C10: wrapper auto-generation never overrides module functions -/

/-- An existing binding survives appending new bindings. -/
theorem modGet_append (m ext : ModuleNS) (nm : String) (f : FnDef)
    (h : modGet m nm = some f) : modGet (m ++ ext) nm = some f := by
  induction m with
  | nil => exact absurd h (by simp [modGet])
  | cons e rest ih =>
    by_cases hc : e.1 = nm
    · simpa [modGet, hc] using h
    · rw [List.cons_append]
      simp only [modGet, hc, if_false] at h ⊢
      exact ih h

/-- `_autogen_pqc_wrappers` preserves every existing binding: the
`hasattr` guard skips bound names and new wrappers are appended, never
replacing anything. -/
theorem autogen_preserves_binding (pol : Dict) (mod : ModuleNS) (nm : String) (f : FnDef)
    (h : modGet mod nm = some f) :
    modGet (_autogen_pqc_wrappers pol mod) nm = some f := by
  unfold _autogen_pqc_wrappers
  generalize (asDict (dgetN pol "pqc_doctypes")) = entries
  induction entries generalizing mod with
  | nil => simpa using h
  | cons e rest ih =>
    simp only [List.foldl_cons]
    apply ih
    cases h1 : (truthy e.2 && truthy (dgetN (asDict e.2) "enabled")) with
    | false => simpa [h1] using h
    | true =>
      cases h2 : modHasAttr mod (_slug_for_fn e.1) with
      | true => simpa [h1, h2] using h
      | false =>
        simp only [h1, h2, if_true, Bool.false_eq_true, if_false]
        exact modGet_append _ _ _ _ h

/-- C10: auto-generation of PQC wrappers from the policy's
`pqc_doctypes` map never replaces a function already defined in the
permissions module; in particular, for every policy, the bespoke
`pqc_project` and `pqc_task` bindings remain in effect after
`_autogen_pqc_wrappers` runs. -/
theorem c10_autogen_never_overrides :
    (∀ (pol : Dict) (mod : ModuleNS) (nm : String) (f : FnDef),
        modGet mod nm = some f →
        modGet (_autogen_pqc_wrappers pol mod) nm = some f) ∧
    (∀ pol : Dict,
        modGet (_autogen_pqc_wrappers pol permissionsModule) "pqc_project" = some .bespoke ∧
        modGet (_autogen_pqc_wrappers pol permissionsModule) "pqc_task" = some .bespoke) := by
  refine ⟨autogen_preserves_binding, fun pol => ⟨?_, ?_⟩⟩
  · exact autogen_preserves_binding pol permissionsModule "pqc_project" .bespoke rfl
  · exact autogen_preserves_binding pol permissionsModule "pqc_task" .bespoke rfl

/-- Witness for C10: under the default policy (Project and Task both
enabled) the bespoke predicates stay bound. -/
theorem c10_autogen_never_overrides_witness :
    modGet (_autogen_pqc_wrappers (_load_policy []) permissionsModule) "pqc_project" =
      some .bespoke ∧
    modGet (_autogen_pqc_wrappers (_load_policy []) permissionsModule) "pqc_task" =
      some .bespoke :=
  c10_autogen_never_overrides.2 (_load_policy [])

end ZVO

namespace ZVO

/-! ## C9: commit discipline of a provisioning run -/

theorem commitCount_append (a b : List Ev) :
    commitCount (a ++ b) = commitCount a + commitCount b := by
  unfold commitCount; exact List.countP_append _ _ _

theorem commitCount_map_write {α : Type} (l : List α) (g : α → Ev)
    (h : ∀ x, g x ≠ Ev.commit) : commitCount (l.map g) = 0 := by
  unfold commitCount
  rw [List.countP_map]
  exact List.countP_eq_zero.mpr (fun a _ => by simpa [Function.comp] using h a)

theorem commitCount_single_commit : commitCount [Ev.commit] = 1 := rfl

theorem commitCount_applyPlanTrace (plan : Plan) :
    commitCount (applyPlanTrace plan) = 1 := by
  unfold applyPlanTrace
  simp [commitCount_append, commitCount_map_write, commitCount_single_commit]

theorem commitCount_ensureBaselines (w : Bool) (missing : List String) :
    commitCount (ensureBaselinesTrace w missing) = if w then 1 else 0 := by
  unfold ensureBaselinesTrace
  cases w with
  | false => rfl
  | true =>
    simp [commitCount_append, commitCount_map_write, commitCount_single_commit]

theorem commitCount_roleProfiles (ps : List String) :
    commitCount (roleProfilesTrace ps) = 1 := by
  unfold roleProfilesTrace
  simp [commitCount_append, commitCount_map_write, commitCount_single_commit]

theorem commitCount_moduleProfiles (o : Option (List String)) :
    commitCount (moduleProfilesTrace o) = 0 := rfl

theorem commitCount_letterheads (o : Option (List String)) :
    commitCount (letterheadsTrace o) = if o.isSome then 1 else 0 := by
  cases o with
  | none => rfl
  | some rows =>
    unfold letterheadsTrace
    simp [commitCount_append, commitCount_map_write, commitCount_single_commit]

/-- C9 (amended): `_apply_plan` itself performs no per-document
commit — its trace holds exactly one commit, as its last event.  But a
full non-dry-run `provision()` run commits more than once: the plan
apply commits, `_apply_role_profiles_from_yaml` always commits,
`_ensure_baselines` commits when the Warehouse Type doctype exists and
`apply_letterheads` when it has work, and `provision` commits once
more at its end.  (The `_apply_module_profiles_from_yaml` that
`provision()` calls is the no-op override, so it never commits.)  A
mid-run failure therefore leaves the *current* helper's batch
uncommitted, while the work of helpers that already completed is
committed. -/
theorem c9_commit_discipline (inp : ProvisionInput) :
    commitCount (applyPlanTrace inp.plan) = 1 ∧
    (applyPlanTrace inp.plan).getLast? = some .commit ∧
    (provisionApplyTrace inp).getLast? = some .commit ∧
    commitCount (provisionApplyTrace inp) =
      3 + (if inp.warehouseTypeDoctype then 1 else 0) +
        (if inp.letterheads.isSome then 1 else 0) := by
  refine ⟨commitCount_applyPlanTrace inp.plan, ?_, ?_, ?_⟩
  · unfold applyPlanTrace
    exact List.getLast?_concat _
  · unfold provisionApplyTrace
    exact List.getLast?_concat _
  · unfold provisionApplyTrace
    simp [commitCount_append, commitCount_applyPlanTrace, commitCount_ensureBaselines,
      commitCount_roleProfiles, commitCount_moduleProfiles, commitCount_letterheads,
      commitCount_map_write, commitCount_single_commit]
    omega

/-- The minimal non-dry-run provisioning input: empty blueprint, no
optional files, every optional side step without work. -/
def c9input : ProvisionInput :=
  ⟨⟨[], [], []⟩, false, [], [], [], [], [], [], none, [], none⟩

/-- C9 counterexample: even the minimal non-dry-run `provision()` run
commits three times (in `_apply_plan`, in
`_apply_role_profiles_from_yaml`, and at the end of `provision`), not
exactly once. -/
theorem c9_counterexample :
    commitCount (provisionApplyTrace c9input) = 3 ∧
    commitCount (provisionApplyTrace c9input) ≠ 1 := by
  refine ⟨rfl, by decide⟩

end ZVO

namespace ZVO

/-! ## C3: scope of the trivial-value normalization -/

/-- `_coerce_bool_int` preserves triviality (it only maps `False` to
`0` and `True` to `1`). -/
theorem trivial_coerce (v : Val) :
    _is_trivial (_coerce_bool_int v) = _is_trivial v := by
  cases v with
  | b x => cases x <;> rfl
  | _ => rfl

theorem dget_eq_none_of_not_mem_keys (d : Dict) (k : String)
    (h : k ∉ d.map Prod.fst) : dget d k = none := by
  induction d with
  | nil => rfl
  | cons kv rest ih =>
    simp only [List.map_cons, List.mem_cons] at h
    push_neg at h
    simp only [dget, if_neg (fun hc : kv.1 = k => h.1 hc.symm)]
    exact ih h.2

/-- Within a workspace child row, a key holding a trivial value cleans
to the same row as the key being absent entirely. -/
theorem clean_row_trivial_drop (row : Dict) (k : String)
    (h : _is_trivial (dgetN row k) = true) :
    _clean_row row = _clean_row (dpop row k) := by
  unfold _clean_row
  apply List.filterMap_congr
  intro kk _
  unfold cleanEntry
  by_cases hkk : kk = k
  · subst hkk
    have hh : _is_trivial (_coerce_bool_int (dgetN row kk)) = true := by
      rw [trivial_coerce]; exact h
    have hp : hasKey (dpop row kk) kk = false := by simp [hasKey_dpop]
    by_cases hk : hasKey row kk <;> simp [hk, hh, hp]
  · have h1 : dgetN (dpop row k) kk = dgetN row kk := by
      simp [dgetN_dpop, hkk]
    have h2 : hasKey (dpop row k) kk = hasKey row kk := by
      simp [hasKey_dpop, hkk]
    rw [h1, h2]

/-- In the top-level field diff, a desired field that is `None`
compares equal to an absent persisted field and never enters the
delta. -/
theorem deltaOf_none_of_vnone (cur new : Dict) (k : String)
    (hnodup : nodupKeys new) (hv : dget new k = some Val.vnone)
    (hc : dgetN cur k = Val.vnone) :
    dget (deltaOf cur new) k = none := by
  unfold deltaOf
  induction new with
  | nil => simp [dget] at hv
  | cons kv rest ih =>
    obtain ⟨k0, v0⟩ := kv
    have hnodup' : nodupKeys rest := (List.nodup_cons.mp hnodup).2
    have hk0 : k0 ∉ rest.map Prod.fst := (List.nodup_cons.mp hnodup).1
    by_cases hk : k0 = k
    · subst hk
      have hv0 : v0 = Val.vnone := by
        simp only [dget, if_pos rfl] at hv
        exact Option.some.inj hv
      subst hv0
      have hpred : (k0 != "doctype" && (k0 != "name" &&
          !pyEq (dgetN cur k0) Val.vnone)) = false := by
        rw [hc]
        simp [pyEq]
      simp only [List.filter_cons, Bool.and_assoc, hpred, Bool.false_eq_true, if_false]
      apply dget_eq_none_of_not_mem_keys
      intro hmem
      exact hk0 (by
        rcases List.mem_map.mp hmem with ⟨e, he, hfst⟩
        exact List.mem_map.mpr ⟨e, (List.mem_filter.mp he).1, hfst⟩)
    · have hv' : dget rest k = some Val.vnone := by
        simpa [dget, hk] using hv
      rcases h0 : (decide (k0 ≠ "doctype") && (decide (k0 ≠ "name") &&
          !pyEq (dgetN cur k0) v0)) with _ | _
      all_goals {
        simp only [List.filter_cons]
        first
        | (rw [if_neg]
           · exact ih hnodup' hv'
           · simp_all [bne_iff_ne])
        | (rw [if_pos]
           · simp only [dget, if_neg hk]
             exact ih hnodup' hv'
           · simp_all [bne_iff_ne]) }

/-- C3 (amended): the trivial-value normalization applies only inside
workspace child rows, where `_clean_row` drops every trivially-valued
allow-listed key, so a trivial value compares equal to an absent key
there; in the top-level field comparison of the plan builder only a
`None`-valued field compares equal to an absent field (`dict.get`
returning `None` for missing keys), while `""`/`0`/`[]`/`{}` at top
level differ from absent and do produce update entries. -/
theorem c3_trivial_value_scope :
    (∀ (row : Dict) (k : String), _is_trivial (dgetN row k) = true →
        _clean_row row = _clean_row (dpop row k)) ∧
    (∀ (cur new : Dict) (k : String), nodupKeys new →
        dget new k = some Val.vnone → dgetN cur k = Val.vnone →
        dget (deltaOf cur new) k = none) :=
  ⟨clean_row_trivial_drop, deltaOf_none_of_vnone⟩

/-- Witness for the amended C3 at concrete rows and fields. -/
theorem c3_trivial_value_scope_witness :
    _clean_row [("icon", Val.s "")] = _clean_row (dpop [("icon", Val.s "")] "icon") ∧
    dget (deltaOf [] [("x", Val.vnone)]) "x" = none :=
  ⟨c3_trivial_value_scope.1 [("icon", Val.s "")] "icon" rfl,
   c3_trivial_value_scope.2 [] [("x", Val.vnone)] "x" (by simp [nodupKeys]) rfl rfl⟩

/-- Persisted state for the C3 counterexample: a Role with no `note`
field. -/
def c3store : Store := [[("doctype", Val.s "Role"), ("name", Val.s "R")]]

/-- Desired state for the C3 counterexample: the same Role with
`note: ""` (a trivial value, present). -/
def c3docs : List Dict := [[("doctype", Val.s "Role"), ("name", Val.s "R"), ("note", Val.s "")]]

/-- C3 counterexample: a top-level field present with the trivial
value `""` against an absent persisted field *does* produce an update
entry — the document does not classify as noop, contradicting the
claim that such a difference never produces an update entry. -/
theorem c3_counterexample :
    (_plan_changes c3store c3docs).update =
      [[("doctype", Val.s "Role"), ("name", Val.s "R"), ("note", Val.s "")]] ∧
    (_plan_changes c3store c3docs).noop = [] :=
  ⟨rfl, rfl⟩

end ZVO

namespace ZVO

/-! ## C8: duplicate-entry handling in the plan applier -/

/-- `_coerce_workspace_json_in_payload` leaves non-Workspace payloads
untouched. -/
theorem coerce_ws_of_not_workspace (p : Dict)
    (h : pyEq (dgetN p "doctype") (.s "Workspace") = false) :
    _coerce_workspace_json_in_payload p = p := by
  unfold _coerce_workspace_json_in_payload
  rw [h]
  rfl

/-- C8 (amended): only a tax-charge-template document in the create
list recovers from a duplicate-entry insert failure: the applier
re-resolves its persisted identity and falls back to an in-place
field-by-field update of the existing record (recording it as
updated); when the re-resolution finds no match the duplicate error
propagates; and for every other doctype a duplicate-entry failure
propagates immediately — the batch fails instead of falling back. -/
theorem c8_duplicate_fallback_tax_only :
    (∀ (store : Store) (d : Dict) (existing : Val),
        pyEq (dgetN d "doctype") (.s taxDT) = true →
        insertDoc store (dpop d "name") = .error .duplicateEntry →
        _resolve_tax_template_name store d = some existing →
        _apply_plan store ⟨[d], [], []⟩ =
          .ok (updateStore store (dgetN d "doctype") existing
                 (fun doc => updateFieldsFrom doc d false),
               ⟨[], [(dgetN d "doctype", existing)]⟩)) ∧
    (∀ (store : Store) (d : Dict),
        pyEq (dgetN d "doctype") (.s taxDT) = true →
        insertDoc store (dpop d "name") = .error .duplicateEntry →
        _resolve_tax_template_name store d = none →
        _apply_plan store ⟨[d], [], []⟩ = .error .duplicateEntry) ∧
    (∀ (store : Store) (d : Dict),
        pyEq (dgetN d "doctype") (.s taxDT) = false →
        insertDoc store (_coerce_workspace_json_in_payload d) = .error .duplicateEntry →
        _apply_plan store ⟨[d], [], []⟩ = .error .duplicateEntry) := by
  have hcoe : ∀ (d : Dict), pyEq (dgetN d "doctype") (.s taxDT) = true →
      _coerce_workspace_json_in_payload (dpop d "name") = dpop d "name" := by
    intro d htax
    apply coerce_ws_of_not_workspace
    have hdt : dgetN d "doctype" = .s taxDT := (pyEq_s_iff _ _).mp htax
    have hdt' : dgetN (dpop d "name") "doctype" = .s taxDT := by
      rw [dgetN_dpop]
      simp [hdt]
    rw [hdt']
    decide
  have hdtpop : ∀ (d : Dict), dgetN (dpop d "name") "doctype" = dgetN d "doctype" := by
    intro d
    rw [dgetN_dpop]
    simp
  refine ⟨?_, ?_, ?_⟩
  · intro store d existing htax hdup hres
    unfold _apply_plan applyCreates createPayload isTaxDoc
    simp only [htax, if_true, hcoe d htax, hdup, hres, hdtpop d]
    rfl
  · intro store d htax hdup hres
    unfold _apply_plan applyCreates createPayload isTaxDoc
    simp only [htax, if_true, hcoe d htax, hdup, hres]
    rfl
  · intro store d htax hdup
    unfold _apply_plan applyCreates createPayload isTaxDoc
    simp only [htax, Bool.false_eq_true, if_false, hdup]
    rfl

/-- Store for the C8 witness: a persisted tax template under its
composite name. -/
def c8taxStore : Store :=
  [[("doctype", Val.s taxDT), ("name", Val.s "VAT - Acme"), ("title", Val.s "VAT"),
    ("company", Val.s "Acme"), ("rate", Val.i 5)]]

/-- A tax-template create whose insert collides with the persisted
record (the blueprint's nominal name differs from the persisted
composite name, as after a concurrent run). -/
def c8taxDoc : Dict :=
  [("doctype", Val.s taxDT), ("name", Val.s "VAT"), ("title", Val.s "VAT"),
   ("company", Val.s "Acme"), ("rate", Val.i 7)]

/-- Witness for the amended C8: the duplicate insert of the tax
template falls back to an in-place update of `"VAT - Acme"` (the rate
becomes 7) and the batch succeeds. -/
theorem c8_duplicate_fallback_tax_only_witness :
    _apply_plan c8taxStore ⟨[c8taxDoc], [], []⟩ =
      .ok ([[("doctype", Val.s taxDT), ("name", Val.s "VAT - Acme"), ("title", Val.s "VAT"),
             ("company", Val.s "Acme"), ("rate", Val.i 7)]],
           ⟨[], [(Val.s taxDT, Val.s "VAT - Acme")]⟩) :=
  (c8_duplicate_fallback_tax_only.1 c8taxStore c8taxDoc (Val.s "VAT - Acme")
    rfl rfl rfl).trans rfl

/-- Persisted state for the C8 counterexample: the Role already
exists (created concurrently after the plan was built). -/
def c8store : Store := [[("doctype", Val.s "Role"), ("name", Val.s "R"), ("desk_access", Val.i 1)]]

/-- A plan created against an older store, still carrying the Role in
its create list. -/
def c8plan : Plan := ⟨[[("doctype", Val.s "Role"), ("name", Val.s "R"), ("desk_access", Val.i 0)]], [], []⟩

/-- C8 counterexample: for a non-tax document the duplicate-entry
error propagates and fails the batch — there is no identity
re-resolution or update fallback, contradicting the claim that every
document in the create list recovers this way. -/
theorem c8_counterexample :
    _apply_plan c8store c8plan = .error .duplicateEntry := rfl

end ZVO

namespace ZVO

/-! ## C2: field-level merge override across blueprint files -/

theorem hasKey_append (a b : Dict) (k : String) :
    hasKey (a ++ b) k = (hasKey a k || hasKey b k) := by
  induction a with
  | nil => simp [hasKey, dget]
  | cons kv rest ih =>
    by_cases h : kv.1 = k
    · obtain ⟨k0, v0⟩ := kv
      simp_all [hasKey, dget]
    · obtain ⟨k0, v0⟩ := kv
      simp_all [hasKey, dget]

theorem dset_append_of_not_hasKey (a : Dict) (k : String) (v : Val)
    (h : hasKey a k = false) : dset a k v = a ++ [(k, v)] := by
  induction a with
  | nil => rfl
  | cons kv rest ih =>
    obtain ⟨k0, v0⟩ := kv
    have h0 : k0 ≠ k := by
      intro hc
      simp [hasKey, dget, hc] at h
    have h' : hasKey rest k = false := by
      simpa [hasKey, dget, h0] using h
    simp [dset, h0, ih h']

theorem dmerge_append_of_disjoint (b : Dict) (a : Dict)
    (hdisj : ∀ kv ∈ b, hasKey a kv.1 = false) (hnd : nodupKeys b) :
    dmerge a b = a ++ b := by
  induction b generalizing a with
  | nil => simp [dmerge]
  | cons kv rest ih =>
    obtain ⟨k0, v0⟩ := kv
    have hk0 : hasKey a k0 = false := hdisj (k0, v0) (List.mem_cons_self _ _)
    have hstep : dmerge a ((k0, v0) :: rest) = dmerge (dset a k0 v0) rest := rfl
    rw [hstep, dset_append_of_not_hasKey a k0 v0 hk0]
    have hnd' : nodupKeys rest := (List.nodup_cons.mp hnd).2
    have hk0mem : k0 ∉ rest.map Prod.fst := (List.nodup_cons.mp hnd).1
    rw [ih (a ++ [(k0, v0)]) ?_ hnd']
    · simp
    · intro kv hkv
      rw [hasKey_append]
      have h1 : hasKey a kv.1 = false := hdisj kv (List.mem_cons_of_mem _ hkv)
      have h2 : hasKey [(k0, v0)] kv.1 = false := by
        have : k0 ≠ kv.1 := by
          intro hc
          exact hk0mem (hc ▸ List.mem_map.mpr ⟨kv, hkv, rfl⟩)
        simp [hasKey, dget, this]
      simp [h1, h2]

theorem dmerge_nil (b : Dict) (hnd : nodupKeys b) : dmerge [] b = b := by
  simpa using dmerge_append_of_disjoint b [] (fun kv _ => rfl) hnd

/-- Per-field characterization of the shallow dict merge: the later
dict wins on every key it carries, the earlier dict's value survives
otherwise. -/
theorem dget_dmerge (b : Dict) (a : Dict) (hnd : nodupKeys b) (k : String) :
    dget (dmerge a b) k = (dget b k <|> dget a k) := by
  induction b generalizing a with
  | nil => simp [dmerge, dget]
  | cons kv rest ih =>
    obtain ⟨k0, v0⟩ := kv
    have hnd' : nodupKeys rest := (List.nodup_cons.mp hnd).2
    have hk0mem : k0 ∉ rest.map Prod.fst := (List.nodup_cons.mp hnd).1
    have hstep : dmerge a ((k0, v0) :: rest) = dmerge (dset a k0 v0) rest := rfl
    rw [hstep, ih (dset a k0 v0) hnd']
    by_cases hk : k0 = k
    · subst hk
      have h1 : dget rest k0 = none := dget_eq_none_of_not_mem_keys rest k0 hk0mem
      simp [h1, dget, dget_dset_self]
    · simp [dget, hk, dget_dset_ne a k0 k v0 (Ne.symm hk)]

/-- A blueprint file dict whose `docs` key carries the given docs. -/
def mkFile (docs : List Val) : Dict := [("docs", .l docs)]

/-- C2: two blueprint files each defining one document with the same
`(doctype, name)` identity merge to *exactly one* document for that
identity; its fields are the per-field union of both definitions, the
later file winning on each overlapping field (a later partial
definition merges into the earlier document, it does not replace
it). -/
theorem c2_merge_field_level_override (d1 d2 : List (String × Val))
    (hdt1 : truthy (dgetN (procDoc (.d d1)) "doctype") = true)
    (hnm1 : truthy (dgetN (procDoc (.d d1)) "name") = true)
    (hdt2 : truthy (dgetN (procDoc (.d d2)) "doctype") = true)
    (hnm2 : truthy (dgetN (procDoc (.d d2)) "name") = true)
    (hkey : keyEq (dgetN (procDoc (.d d1)) "doctype", dgetN (procDoc (.d d1)) "name")
        (dgetN (procDoc (.d d2)) "doctype", dgetN (procDoc (.d d2)) "name") = true)
    (hnd1 : nodupKeys (procDoc (.d d1)))
    (hnd2 : nodupKeys (procDoc (.d d2))) :
    _merge_docs [mkFile [.d d1], mkFile [.d d2]] =
      .ok [dmerge (procDoc (.d d1)) (procDoc (.d d2))] ∧
    (∀ k : String,
      dget (dmerge (procDoc (.d d1)) (procDoc (.d d2))) k =
        (dget (procDoc (.d d2)) k <|> dget (procDoc (.d d1)) k)) := by
  constructor
  · have h1 : mergeStep [] (Val.d d1) =
        .ok [((dgetN (procDoc (.d d1)) "doctype", dgetN (procDoc (.d d1)) "name"),
              procDoc (.d d1))] := by
      unfold mergeStep
      simp only [hdt1, hnm1, Bool.not_true, Bool.or_self, Bool.false_eq_true, if_false,
        mlookup, Option.getD_none, mset]
      rw [dmerge_nil _ hnd1]
    have h2 : mergeStep
        [((dgetN (procDoc (.d d1)) "doctype", dgetN (procDoc (.d d1)) "name"),
          procDoc (.d d1))] (Val.d d2) =
        .ok [((dgetN (procDoc (.d d1)) "doctype", dgetN (procDoc (.d d1)) "name"),
              dmerge (procDoc (.d d1)) (procDoc (.d d2)))] := by
      unfold mergeStep
      simp only [hdt2, hnm2, Bool.not_true, Bool.or_self, Bool.false_eq_true, if_false,
        mlookup, hkey, if_true, Option.getD_some, mset]
    have hds1 : asList (dgetN (mkFile [Val.d d1]) "docs") = [Val.d d1] := rfl
    have hds2 : asList (dgetN (mkFile [Val.d d2]) "docs") = [Val.d d2] := rfl
    have hbind : ∀ {α β : Type} (a : α) (f : α → Except String β),
        (Except.ok a >>= f) = f a := fun _ _ => rfl
    have hpure : ∀ {α : Type} (a : α), (pure a : Except String α) = Except.ok a :=
      fun _ => rfl
    unfold _merge_docs
    simp only [List.foldlM, hds1, hds2, hbind, h1, h2, hpure, List.map_cons, List.map_nil]
  · exact dget_dmerge (procDoc (.d d2)) (procDoc (.d d1)) hnd2

/-- Earlier blueprint file's document for the C2 witness. -/
def c2d1 : List (String × Val) :=
  [("doctype", Val.s "Role"), ("name", Val.s "R"), ("desk_access", Val.i 1),
   ("note", Val.s "hello")]

/-- Later blueprint file's partial override of the same `(Role, R)`
identity. -/
def c2d2 : List (String × Val) :=
  [("doctype", Val.s "Role"), ("name", Val.s "R"), ("desk_access", Val.i 0)]

/-- Witness for C2: the merged set holds exactly one `(Role, R)`
document; the later file's `desk_access` wins, the earlier file's
`note` survives. -/
theorem c2_merge_field_level_override_witness :
    _merge_docs [mkFile [.d c2d1], mkFile [.d c2d2]] =
      .ok [[("doctype", Val.s "Role"), ("name", Val.s "R"), ("desk_access", Val.i 0),
            ("note", Val.s "hello")]] ∧
    dget (dmerge (procDoc (.d c2d1)) (procDoc (.d c2d2))) "note" = some (Val.s "hello") ∧
    dget (dmerge (procDoc (.d c2d1)) (procDoc (.d c2d2))) "desk_access" = some (Val.i 0) := by
  have h := c2_merge_field_level_override c2d1 c2d2 rfl rfl rfl rfl rfl
    (by decide) (by decide)
  exact ⟨h.1.trans rfl, (h.2 "note").trans rfl, (h.2 "desk_access").trans rfl⟩

end ZVO

namespace ZVO

/-! ## `pyEq` is an equivalence (needed to reason about identities) -/

theorem int_beq_comm (m n : Int) : (m == n) = (n == m) := by
  by_cases h : m = n
  · simp [h]
  · simp [h, Ne.symm h]

theorem str_beq_comm (x y : String) : (x == y) = (y == x) := by
  by_cases h : x = y
  · simp [h]
  · simp [h, Ne.symm h]

mutual

theorem pyEq_symm : (a b : Val) → pyEq a b = pyEq b a
  | .vnone, .vnone => rfl
  | .b x, .b y => by cases x <;> cases y <;> rfl
  | .b x, .i n => by simp only [pyEq]; exact int_beq_comm _ n
  | .i n, .b x => by simp only [pyEq]; exact int_beq_comm n _
  | .i m, .i n => by simp only [pyEq]; exact int_beq_comm m n
  | .s x, .s y => by simp only [pyEq]; exact str_beq_comm x y
  | .l xs, .l ys => by simp only [pyEq]; exact pyEqList_symm xs ys
  | .d xs, .d ys => by simp only [pyEq]; exact pyEqKVs_symm xs ys
  | .vnone, .b _ => rfl
  | .vnone, .i _ => rfl
  | .vnone, .s _ => rfl
  | .vnone, .l _ => rfl
  | .vnone, .d _ => rfl
  | .b _, .vnone => rfl
  | .b _, .s _ => rfl
  | .b _, .l _ => rfl
  | .b _, .d _ => rfl
  | .i _, .vnone => rfl
  | .i _, .s _ => rfl
  | .i _, .l _ => rfl
  | .i _, .d _ => rfl
  | .s _, .vnone => rfl
  | .s _, .b _ => rfl
  | .s _, .i _ => rfl
  | .s _, .l _ => rfl
  | .s _, .d _ => rfl
  | .l _, .vnone => rfl
  | .l _, .b _ => rfl
  | .l _, .i _ => rfl
  | .l _, .s _ => rfl
  | .l _, .d _ => rfl
  | .d _, .vnone => rfl
  | .d _, .b _ => rfl
  | .d _, .i _ => rfl
  | .d _, .s _ => rfl
  | .d _, .l _ => rfl

theorem pyEqList_symm : (xs ys : List Val) → pyEqList xs ys = pyEqList ys xs
  | [], [] => rfl
  | x :: xs, y :: ys => by
      simp only [pyEqList]
      rw [pyEq_symm x y, pyEqList_symm xs ys]
  | [], _ :: _ => rfl
  | _ :: _, [] => rfl

theorem pyEqKVs_symm : (xs ys : List (String × Val)) → pyEqKVs xs ys = pyEqKVs ys xs
  | [], [] => rfl
  | (k, v) :: xs, (k', w) :: ys => by
      simp only [pyEqKVs]
      rw [str_beq_comm k k', pyEq_symm v w, pyEqKVs_symm xs ys]
  | [], _ :: _ => rfl
  | _ :: _, [] => rfl

end

mutual

theorem pyEq_trans : (a b c : Val) → pyEq a b = true → pyEq b c = true → pyEq a c = true
  | .vnone, .vnone, .vnone, _, _ => rfl
  | .b x, .b y, .b z, h1, h2 => by
      cases x <;> cases y <;> cases z <;> simp_all [pyEq]
  | .b x, .b y, .i n, h1, h2 => by
      cases x <;> cases y <;> simp_all [pyEq]
  | .b x, .i n, .b z, h1, h2 => by
      cases x <;> cases z <;> simp_all [pyEq] <;> omega
  | .b x, .i m, .i n, h1, h2 => by
      cases x <;> simp_all [pyEq] <;> omega
  | .i m, .b y, .b z, h1, h2 => by
      cases y <;> cases z <;> simp_all [pyEq]
  | .i m, .b y, .i n, h1, h2 => by
      cases y <;> simp_all [pyEq] <;> omega
  | .i m, .i n, .b z, h1, h2 => by
      cases z <;> simp_all [pyEq] <;> omega
  | .i m, .i n, .i p, h1, h2 => by
      simp_all [pyEq]
  | .s x, .s y, .s z, h1, h2 => by
      simp_all [pyEq]
  | .l xs, .l ys, .l zs, h1, h2 => by
      simp only [pyEq] at h1 h2 ⊢
      exact pyEqList_trans xs ys zs h1 h2
  | .d xs, .d ys, .d zs, h1, h2 => by
      simp only [pyEq] at h1 h2 ⊢
      exact pyEqKVs_trans xs ys zs h1 h2

theorem pyEqList_trans : (xs ys zs : List Val) →
    pyEqList xs ys = true → pyEqList ys zs = true → pyEqList xs zs = true
  | [], [], [], _, _ => rfl
  | x :: xs, y :: ys, z :: zs, h1, h2 => by
      simp only [pyEqList, Bool.and_eq_true] at h1 h2 ⊢
      exact ⟨pyEq_trans x y z h1.1 h2.1, pyEqList_trans xs ys zs h1.2 h2.2⟩

theorem pyEqKVs_trans : (xs ys zs : List (String × Val)) →
    pyEqKVs xs ys = true → pyEqKVs ys zs = true → pyEqKVs xs zs = true
  | [], [], [], _, _ => rfl
  | (k, v) :: xs, (k', w) :: ys, (k'', u) :: zs, h1, h2 => by
      simp only [pyEqKVs, Bool.and_eq_true, beq_iff_eq] at h1 h2 ⊢
      exact ⟨⟨h1.1.1.trans h2.1.1, pyEq_trans v w u h1.1.2 h2.1.2⟩,
        pyEqKVs_trans xs ys zs h1.2 h2.2⟩

end

end ZVO

namespace ZVO

/-! ## Dict lemmas for the reconciliation proof -/

theorem dget_some_mem {d : Dict} {k : String} {v : Val} (h : dget d k = some v) :
    (k, v) ∈ d := by
  induction d with
  | nil => cases h
  | cons kv rest ih =>
    obtain ⟨k0, v0⟩ := kv
    by_cases h0 : k0 = k
    · subst h0
      simp only [dget, if_pos rfl] at h
      exact (Option.some.inj h) ▸ List.mem_cons_self _ _
    · exact List.mem_cons_of_mem _ (ih (by simpa [dget, h0] using h))

theorem mem_dget_of_nodup {d : Dict} {k : String} {v : Val}
    (hnd : nodupKeys d) (h : (k, v) ∈ d) : dget d k = some v := by
  induction d with
  | nil => cases h
  | cons kv rest ih =>
    obtain ⟨k0, v0⟩ := kv
    rcases List.mem_cons.mp h with h | h
    · cases h
      simp [dget]
    · have hk0 : k0 ∉ rest.map Prod.fst := (List.nodup_cons.mp hnd).1
      have hne : k0 ≠ k := by
        intro hc
        exact hk0 (hc ▸ List.mem_map.mpr ⟨(k, v), h, rfl⟩)
      simp only [dget, if_neg hne]
      exact ih (List.nodup_cons.mp hnd).2 h

theorem hasKey_iff_mem_keys (d : Dict) (k : String) :
    hasKey d k = true ↔ k ∈ d.map Prod.fst := by
  induction d with
  | nil => simp [hasKey, dget]
  | cons kv rest ih =>
    obtain ⟨k0, v0⟩ := kv
    by_cases h0 : k0 = k
    · simp [hasKey, dget, h0]
    · simpa [hasKey, dget, h0, Ne.symm h0] using ih

theorem dset_same (d : Dict) (k : String) (h : hasKey d k = true) :
    dset d k (dgetN d k) = d := by
  induction d with
  | nil => simp [hasKey, dget] at h
  | cons kv rest ih =>
    obtain ⟨k0, v0⟩ := kv
    by_cases h0 : k0 = k
    · subst h0
      simp [dset, dgetN, dget]
    · have h' : hasKey rest k = true := by simpa [hasKey, dget, h0] using h
      have : dgetN ((k0, v0) :: rest) k = dgetN rest k := by simp [dgetN, dget, h0]
      rw [this]
      simp [dset, h0, ih h']

theorem keys_dset (d : Dict) (k : String) (v : Val) :
    (dset d k v).map Prod.fst =
      if hasKey d k then d.map Prod.fst else d.map Prod.fst ++ [k] := by
  induction d with
  | nil => simp [dset, hasKey, dget]
  | cons kv rest ih =>
    obtain ⟨k0, v0⟩ := kv
    by_cases h0 : k0 = k
    · subst h0
      simp [dset, hasKey, dget]
    · simp only [dset, if_neg h0, List.map_cons, ih, hasKey]
      by_cases hc : (dget rest k).isSome = true <;> simp [dget, h0, hc]

theorem nodupKeys_dset (d : Dict) (k : String) (v : Val) (h : nodupKeys d) :
    nodupKeys (dset d k v) := by
  unfold nodupKeys at h ⊢
  rw [keys_dset]
  by_cases hk : hasKey d k
  · simpa [hk] using h
  · simp only [hk, Bool.false_eq_true, if_false]
    rw [List.nodup_append]
    exact ⟨h, List.nodup_singleton _, by
      intro a ha hb
      rw [List.mem_singleton] at hb
      subst hb
      exact absurd ((hasKey_iff_mem_keys d a).mpr ha) (by simpa using hk)⟩

theorem nodupKeys_filter (d : Dict) (p : String × Val → Bool) (h : nodupKeys d) :
    nodupKeys (d.filter p) := by
  unfold nodupKeys at h ⊢
  exact List.Nodup.sublist ((List.filter_sublist d).map Prod.fst) h

theorem nodupKeys_dpop (d : Dict) (k : String) (h : nodupKeys d) :
    nodupKeys (dpop d k) := nodupKeys_filter d _ h

end ZVO

namespace ZVO

/-! ## Field-level characterization of the applier's setters -/

theorem updateFieldsFrom_doctype (src : Dict) (doc : Dict) (wsJson : Bool) :
    dgetN (updateFieldsFrom doc src wsJson) "doctype" = dgetN doc "doctype" := by
  induction src generalizing doc with
  | nil => rfl
  | cons kv rest ih =>
    obtain ⟨k0, v0⟩ := kv
    rw [show updateFieldsFrom doc ((k0, v0) :: rest) wsJson =
        updateFieldsFrom (if k0 == "doctype" || k0 == "name" then doc
          else if wsJson && (k0 == "content" || k0 == "onboarding_list") then
            dset doc k0 (_jsonify_array v0)
          else dset doc k0 v0) rest wsJson from rfl]
    rw [ih]
    by_cases h1 : (k0 == "doctype" || k0 == "name") = true
    · simp [h1]
    · have hne : "doctype" ≠ k0 := by
        intro hc
        simp [← hc] at h1
      by_cases h2 : (wsJson && (k0 == "content" || k0 == "onboarding_list")) = true <;>
        simp [h1, h2, dgetN_dset_ne _ _ _ _ hne]

theorem updateFieldsFrom_name (src : Dict) (doc : Dict) (wsJson : Bool) :
    dgetN (updateFieldsFrom doc src wsJson) "name" = dgetN doc "name" := by
  induction src generalizing doc with
  | nil => rfl
  | cons kv rest ih =>
    obtain ⟨k0, v0⟩ := kv
    rw [show updateFieldsFrom doc ((k0, v0) :: rest) wsJson =
        updateFieldsFrom (if k0 == "doctype" || k0 == "name" then doc
          else if wsJson && (k0 == "content" || k0 == "onboarding_list") then
            dset doc k0 (_jsonify_array v0)
          else dset doc k0 v0) rest wsJson from rfl]
    rw [ih]
    by_cases h1 : (k0 == "doctype" || k0 == "name") = true
    · simp [h1]
    · have hne : "name" ≠ k0 := by
        intro hc
        simp [← hc] at h1
    
      by_cases h2 : (wsJson && (k0 == "content" || k0 == "onboarding_list")) = true <;>
        simp [h1, h2, dgetN_dset_ne _ _ _ _ hne]

theorem updateFieldsFrom_get (src : Dict) (doc : Dict) (wsJson : Bool) (k : String)
    (hnd : nodupKeys src) :
    dgetN (updateFieldsFrom doc src wsJson) k =
      match dget src k with
      | none => dgetN doc k
      | some v =>
        if k = "doctype" ∨ k = "name" then dgetN doc k
        else if wsJson = true ∧ (k = "content" ∨ k = "onboarding_list") then _jsonify_array v
        else v := by
  induction src generalizing doc with
  | nil => simp [updateFieldsFrom, dget]
  | cons kv rest ih =>
    obtain ⟨k0, v0⟩ := kv
    have hnd' : nodupKeys rest := (List.nodup_cons.mp hnd).2
    have hk0 : k0 ∉ rest.map Prod.fst := (List.nodup_cons.mp hnd).1
    rw [show updateFieldsFrom doc ((k0, v0) :: rest) wsJson =
        updateFieldsFrom (if k0 == "doctype" || k0 == "name" then doc
          else if wsJson && (k0 == "content" || k0 == "onboarding_list") then
            dset doc k0 (_jsonify_array v0)
          else dset doc k0 v0) rest wsJson from rfl]
    rw [ih _ hnd']
    by_cases hkk : k0 = k
    · subst hkk
      rw [dget_eq_none_of_not_mem_keys rest k0 hk0]
      simp only [dget, if_pos rfl]
      by_cases h1 : (k0 == "doctype" || k0 == "name") = true
      · have h1' : k0 = "doctype" ∨ k0 = "name" := by simpa using h1
        simp [h1, h1']
      · have h1' : ¬(k0 = "doctype" ∨ k0 = "name") := by simpa using h1
        by_cases h2 : (wsJson && (k0 == "content" || k0 == "onboarding_list")) = true
        · have h2' : wsJson = true ∧ (k0 = "content" ∨ k0 = "onboarding_list") := by
            simpa using h2
          simp [h1, h2, h1', h2', dgetN_dset_self]
        · have h2' : ¬(wsJson = true ∧ (k0 = "content" ∨ k0 = "onboarding_list")) := by
            simpa using h2
          simp [h1, h2, h1', h2', dgetN_dset_self]
    · have hdg : dget ((k0, v0) :: rest) k = dget rest k := by simp [dget, hkk]
      rw [hdg]
      by_cases h1 : (k0 == "doctype" || k0 == "name") = true
      · simp [h1]
      · by_cases h2 : (wsJson && (k0 == "content" || k0 == "onboarding_list")) = true <;>
          simp [h1, h2, dgetN_dset_ne _ _ _ _ (Ne.symm hkk)]

theorem updateFieldsFrom_hasKey (src : Dict) (doc : Dict) (wsJson : Bool) (k : String) :
    hasKey (updateFieldsFrom doc src wsJson) k =
      (hasKey doc k || (hasKey src k && !(k == "doctype" || k == "name"))) := by
  induction src generalizing doc with
  | nil => simp [updateFieldsFrom, hasKey, dget]
  | cons kv rest ih =>
    obtain ⟨k0, v0⟩ := kv
    rw [show updateFieldsFrom doc ((k0, v0) :: rest) wsJson =
        updateFieldsFrom (if k0 == "doctype" || k0 == "name" then doc
          else if wsJson && (k0 == "content" || k0 == "onboarding_list") then
            dset doc k0 (_jsonify_array v0)
          else dset doc k0 v0) rest wsJson from rfl]
    rw [ih]
    by_cases hkk : k0 = k
    · subst hkk
      by_cases h1 : (k0 == "doctype" || k0 == "name") = true
      · simp [h1, hasKey, dget]
      · by_cases h2 : (wsJson && (k0 == "content" || k0 == "onboarding_list")) = true <;>
          · simp only [h1, h2, Bool.false_eq_true, if_false, if_true, hasKey_dset, if_pos rfl]
            simp [hasKey, dget, h1]
    · have hcons : hasKey ((k0, v0) :: rest) k = hasKey rest k := by
        simp [hasKey, dget, hkk]
      rw [hcons]
      by_cases h1 : (k0 == "doctype" || k0 == "name") = true
      · simp [h1]
      · by_cases h2 : (wsJson && (k0 == "content" || k0 == "onboarding_list")) = true <;>
          simp [h1, h2, hasKey_dset, Ne.symm hkk]

end ZVO

namespace ZVO

/-! ## Payload characterization and store-query lemmas -/

theorem coerce_ws_get (p : Dict) (k : String) (h1 : k ≠ "content")
    (h2 : k ≠ "onboarding_list") :
    dgetN (_coerce_workspace_json_in_payload p) k = dgetN p k := by
  unfold _coerce_workspace_json_in_payload
  by_cases hws : pyEq (dgetN p "doctype") (.s "Workspace") = true
  · have g1 : ∀ q : Dict,
        dgetN (if hasKey q "content" then dset q "content" (_jsonify_array (dgetN q "content"))
          else q) k = dgetN q k := by
      intro q
      by_cases h : hasKey q "content" <;> simp [h, dgetN_dset_ne _ _ _ _ h1]
    have g2 : ∀ q : Dict,
        dgetN (if hasKey q "onboarding_list" then
          dset q "onboarding_list" (_jsonify_array (dgetN q "onboarding_list")) else q) k =
          dgetN q k := by
      intro q
      by_cases h : hasKey q "onboarding_list" <;> simp [h, dgetN_dset_ne _ _ _ _ h2]
    simp only [hws, if_true, List.foldl_cons, List.foldl_nil]
    exact (g2 _).trans (g1 p)
  · simp [hws]

theorem coerce_ws_hasKey (p : Dict) (k : String) :
    hasKey (_coerce_workspace_json_in_payload p) k = hasKey p k := by
  unfold _coerce_workspace_json_in_payload
  by_cases hws : pyEq (dgetN p "doctype") (.s "Workspace") = true
  · have g : ∀ (q : Dict) (t : String),
        hasKey (if hasKey q t then dset q t (_jsonify_array (dgetN q t)) else q) k =
          hasKey q k := by
      intro q t
      by_cases h : hasKey q t
      · rw [if_pos h, hasKey_dset]
        by_cases hkt : k = t
        · rw [if_pos hkt, hkt, h]
        · rw [if_neg hkt]
      · rw [if_neg h]
    simp only [hws, if_true, List.foldl_cons, List.foldl_nil]
    exact (g _ _).trans (g p _)
  · simp [hws]

theorem createPayload_get (d : Dict) (k : String) (h1 : k ≠ "name") (h2 : k ≠ "content")
    (h3 : k ≠ "onboarding_list") :
    dgetN (createPayload d) k = dgetN d k := by
  unfold createPayload
  rw [coerce_ws_get _ _ h2 h3]
  by_cases ht : isTaxDoc d = true
  · simp [ht, dgetN_dpop, h1]
  · simp [ht]

theorem createPayload_hasKey (d : Dict) (k : String) (h1 : k ≠ "name") :
    hasKey (createPayload d) k = hasKey d k := by
  unfold createPayload
  rw [coerce_ws_hasKey]
  by_cases ht : isTaxDoc d = true
  · simp [ht, hasKey_dpop, h1]
  · simp [ht]

theorem createPayload_doctype (d : Dict) :
    dgetN (createPayload d) "doctype" = dgetN d "doctype" :=
  createPayload_get d "doctype" (by decide) (by decide) (by decide)

theorem createPayload_name (d : Dict) :
    dgetN (createPayload d) "name" = if isTaxDoc d then Val.vnone else dgetN d "name" := by
  unfold createPayload
  rw [coerce_ws_get _ _ (by decide) (by decide)]
  by_cases ht : isTaxDoc d = true <;> simp [ht, dgetN_dpop]

theorem insertName_createPayload (d : Dict) (hname : truthy (dgetN d "name") = true) :
    insertName (createPayload d) =
      if isTaxDoc d = true then autonameTax (createPayload d) else dgetN d "name" := by
  unfold insertName
  rw [createPayload_name, createPayload_doctype]
  by_cases ht : isTaxDoc d = true
  · have ht' : pyEq (dgetN d "doctype") (.s taxDT) = true := ht
    simp [ht, ht', truthy]
  · have ht' : pyEq (dgetN d "doctype") (.s taxDT) = false := by
      simpa [isTaxDoc] using ht
    simp [ht, hname]

theorem getDoc_isSome_eq_dbExists (s : Store) (dt nm : Val) :
    (getDoc s dt nm).isSome = dbExists s dt nm := by
  induction s with
  | nil => rfl
  | cons r rest ih =>
    unfold getDoc dbExists at ih ⊢
    cases h : idMatches r dt nm <;>
      simp [List.find?_cons, List.any_cons, h, ih]

theorem getDoc_append (a b : Store) (dt nm : Val) :
    getDoc (a ++ b) dt nm =
      match getDoc a dt nm with
      | some r => some r
      | none => getDoc b dt nm := by
  induction a with
  | nil => simp [getDoc]
  | cons r rest ih =>
    unfold getDoc at ih ⊢
    cases h : idMatches r dt nm <;>
      simp [List.find?_cons, h, ih]

/-- A successful tax-template resolution names an existing record of
the template doctype. -/
theorem resolve_tax_some (store : Store) (d : Dict) (r : Val)
    (h : _resolve_tax_template_name store d = some r) :
    pyEq (dgetN d "doctype") (.s taxDT) = true ∧
      dbExists store (dgetN d "doctype") r = true := by
  unfold _resolve_tax_template_name at h
  by_cases h0 : pyEq (dgetN d "doctype") (.s taxDT) = true
  case neg => simp [h0] at h
  case pos =>
    refine ⟨h0, ?_⟩
    have hdt : dgetN d "doctype" = .s taxDT := (pyEq_s_iff _ _).mp h0
    rw [hdt]
    rw [if_neg (by simp [h0])] at h
    simp only [] at h
    generalize htl : (if truthy (dgetN d "title") = true then dgetN d "title"
      else dgetN d "name") = ttl at h
    by_cases h1 : truthy ttl = true
    case neg =>
      rw [if_pos (by simp [h1])] at h
      cases h
    case pos =>
      rw [if_neg (by simp [h1])] at h
      generalize hfil : (if truthy (dgetN d "company") = true then
          [("title", ttl), ("company", dgetN d "company")]
        else [("title", ttl)]) = filters at h
      generalize hex : getValueFilters store taxDT filters "name" = existing at h
      by_cases h2 : truthy existing = true
      · rw [if_pos h2] at h
        cases h
        unfold getValueFilters at hex
        revert hex
        cases hf : store.find? (fun rec => pyEq (dgetN rec "doctype") (.s taxDT) &&
            filters.all fun kv => pyEq (dgetN rec kv.1) kv.2) with
        | none =>
          intro hex
          rw [← hex] at h2
          exact absurd h2 (by simp [truthy])
        | some r0 =>
          intro hex
          have hmem := List.mem_of_find?_eq_some hf
          have hpred := List.find?_some hf
          have hp1 : pyEq (dgetN r0 "doctype") (.s taxDT) = true := by
            rw [Bool.and_eq_true] at hpred
            exact hpred.1
          unfold dbExists
          rw [List.any_eq_true]
          refine ⟨r0, hmem, ?_⟩
          unfold idMatches
          rw [hp1, ← hex, pyEq_refl]
          rfl
      · rw [if_neg h2] at h
        have := List.find?_some h
        simpa using this

end ZVO

namespace ZVO

/-! ## Idempotence of the workspace-row normalizer -/

theorem dropWhile_head_not {α : Type} (p : α → Bool) (l : List α) (a : α) (t : List α)
    (h : l.dropWhile p = a :: t) : p a = false := by
  induction l with
  | nil => cases h
  | cons x xs ih =>
    by_cases hx : p x = true
    · exact ih (by simpa [List.dropWhile_cons, hx] using h)
    · have hx' : p x = false := by simpa using hx
      rw [List.dropWhile_cons, hx'] at h
      simp at h
      cases h.1
      exact hx'

theorem dropWhile_append_decomp {α : Type} (p : α → Bool) (l : List α) :
    ∃ u, l = u ++ l.dropWhile p := by
  induction l with
  | nil => exact ⟨[], rfl⟩
  | cons x xs ih =>
    by_cases hx : p x = true
    · rcases ih with ⟨u, hu⟩
      exact ⟨x :: u, by simp [List.dropWhile_cons, hx, ← hu]⟩
    · exact ⟨[], by simp [List.dropWhile_cons, hx]⟩

theorem pyStrip_idem (s : String) : pyStrip (pyStrip s) = pyStrip s := by
  unfold pyStrip
  apply congrArg String.mk
  have htl : ∀ cs : List Char, (String.mk cs).toList = cs := fun cs => rfl
  rw [htl]
  set p := Char.isWhitespace with hp
  set cs1 := s.toList.dropWhile p with hcs1
  set cs2 := cs1.reverse.dropWhile p with hcs2
  -- the head of the double-trimmed list is the head of `cs1`
  have hstep1 : cs2.reverse.dropWhile p = cs2.reverse := by
    cases hr : cs2.reverse with
    | nil => simp
    | cons a t =>
      rcases dropWhile_append_decomp p cs1.reverse with ⟨u, hu⟩
      have hcs1eq : cs1 = cs2.reverse ++ u.reverse := by
        have := congrArg List.reverse hu
        simpa [hcs2] using this
      have hhd : ∃ t', cs1 = a :: t' := by
        rw [hcs1eq, hr]
        exact ⟨t ++ u.reverse, by simp⟩
      rcases hhd with ⟨t', ht'⟩
      have hpa : p a = false := dropWhile_head_not p s.toList a t' (hcs1 ▸ ht')
      rw [List.dropWhile_cons, hpa]
      simp
  rw [hstep1]
  cases hc2 : cs2 with
  | nil => simp [← hc2]
  | cons b u =>
    have hpb : p b = false := dropWhile_head_not p cs1.reverse b u (hcs2 ▸ hc2)
    rw [List.reverse_reverse, List.dropWhile_cons, hpb]
    simp

end ZVO

namespace ZVO

/-! ## `_clean_row` idempotence and ordered-insert lemmas -/

theorem keep_nodup : _WS_KEEP.Nodup := by decide

theorem cleanEntry_key (row : Dict) (k : String) (kv : String × Val)
    (h : cleanEntry row k = some kv) : kv.1 = k := by
  unfold cleanEntry at h
  split at h
  case isFalse => cases h
  case isTrue hkk =>
    simp only [] at h
    split at h
    case isFalse => cases h
    case isTrue htriv =>
      split at h
      · split at h
        · cases h
        · injection h with h2
          rw [← h2]
      · injection h with h2
        rw [← h2]

theorem dget_filterMap_keys (ks : List String) (f : String → Option (String × Val))
    (hf : ∀ k kv, f k = some kv → kv.1 = k) (hnd : ks.Nodup) (k : String) :
    dget (ks.filterMap f) k = if k ∈ ks then (f k).map Prod.snd else none := by
  induction ks with
  | nil => simp [dget]
  | cons t rest ih =>
    have hnd' : rest.Nodup := (List.nodup_cons.mp hnd).2
    have htmem : t ∉ rest := (List.nodup_cons.mp hnd).1
    rw [List.filterMap_cons]
    cases hft : f t with
    | none =>
      by_cases hkt : k = t
      · subst hkt
        rw [ih hnd', if_neg htmem, if_pos (List.mem_cons_self _ _), hft]
        rfl
      · rw [ih hnd']
        by_cases hkm : k ∈ rest <;>
          simp [hkm, hkt, List.mem_cons]
    | some kv =>
      obtain ⟨k', w⟩ := kv
      have hk' : k' = t := hf t (k', w) hft
      subst hk'
      by_cases hkt : k = k'
      · subst hkt
        simp [dget, hft, List.mem_cons]
      · rw [show dget ((k', w) :: rest.filterMap f) k = dget (rest.filterMap f) k by
          simp [dget, Ne.symm hkt]]
        rw [ih hnd']
        by_cases hkm : k ∈ rest <;>
          simp [hkm, hkt, List.mem_cons]

theorem dget_clean_row (row : Dict) (k : String) :
    dget (_clean_row row) k =
      if k ∈ _WS_KEEP then (cleanEntry row k).map Prod.snd else none :=
  dget_filterMap_keys _WS_KEEP (cleanEntry row) (cleanEntry_key row) keep_nodup k

theorem coerce_ne_b (x : Val) (b : Bool) : _coerce_bool_int x ≠ .b b := by
  cases x <;> simp [_coerce_bool_int]

/-- The values a cleaned row stores are already fully cleaned. -/
theorem cleanEntry_some_props (row : Dict) (k : String) (kv : String × Val)
    (h : cleanEntry row k = some kv) :
    _coerce_bool_int kv.2 = kv.2 ∧ _is_trivial kv.2 = false ∧
      (∀ str, kv.2 = Val.s str → pyStrip str = str ∧ str ≠ "") := by
  unfold cleanEntry at h
  split at h
  case isFalse => cases h
  case isTrue hkk =>
    cases hv : _coerce_bool_int (dgetN row k) with
    | vnone =>
      rw [hv] at h
      replace h : (if (!_is_trivial Val.vnone) = true then some (k, Val.vnone)
          else none) = some kv := h
      have hb : _is_trivial Val.vnone = true := by decide
      rw [hb] at h
      replace h : (none : Option (String × Val)) = some kv := h
      cases h
    | b bb => exact absurd hv (coerce_ne_b (dgetN row k) bb)
    | i n =>
      rw [hv] at h
      replace h : (if (!_is_trivial (Val.i n)) = true then some (k, Val.i n)
          else none) = some kv := h
      cases hb : _is_trivial (Val.i n) with
      | true =>
        rw [hb] at h
        replace h : (none : Option (String × Val)) = some kv := h
        cases h
      | false =>
        rw [hb] at h
        replace h : some (k, Val.i n) = some kv := h
        injection h with h2
        subst h2
        refine ⟨rfl, hb, ?_⟩
        intro str hc
        simp at hc
    | l xs =>
      rw [hv] at h
      replace h : (if (!_is_trivial (Val.l xs)) = true then some (k, Val.l xs)
          else none) = some kv := h
      cases hb : _is_trivial (Val.l xs) with
      | true =>
        rw [hb] at h
        replace h : (none : Option (String × Val)) = some kv := h
        cases h
      | false =>
        rw [hb] at h
        replace h : some (k, Val.l xs) = some kv := h
        injection h with h2
        subst h2
        refine ⟨rfl, hb, ?_⟩
        intro str hc
        simp at hc
    | d kvs =>
      rw [hv] at h
      replace h : (if (!_is_trivial (Val.d kvs)) = true then some (k, Val.d kvs)
          else none) = some kv := h
      cases hb : _is_trivial (Val.d kvs) with
      | true =>
        rw [hb] at h
        replace h : (none : Option (String × Val)) = some kv := h
        cases h
      | false =>
        rw [hb] at h
        replace h : some (k, Val.d kvs) = some kv := h
        injection h with h2
        subst h2
        refine ⟨rfl, hb, ?_⟩
        intro str hc
        simp at hc
    | s str =>
      rw [hv] at h
      replace h : (if (!_is_trivial (Val.s str)) = true then
          (if pyStrip str = "" then none else some (k, Val.s (pyStrip str)))
          else none) = some kv := h
      cases hb : _is_trivial (Val.s str) with
      | true =>
        rw [hb] at h
        replace h : (none : Option (String × Val)) = some kv := h
        cases h
      | false =>
        rw [hb] at h
        replace h : (if pyStrip str = "" then none
            else some (k, Val.s (pyStrip str))) = some kv := h
        by_cases hne : pyStrip str = ""
        · simp [hne] at h
        · simp [hne] at h
          subst h
          refine ⟨rfl, ?_, ?_⟩
          · simp [_is_trivial, pyEq, hne]
          · intro str' hstr'
            have h2 : pyStrip str = str' := by simpa using hstr'
            subst h2
            exact ⟨pyStrip_idem str, hne⟩

theorem clean_row_idem (row : Dict) : _clean_row (_clean_row row) = _clean_row row := by
  have hcongr : ∀ k ∈ _WS_KEEP, cleanEntry (_clean_row row) k = cleanEntry row k := by
    intro k hk
    have hget : dget (_clean_row row) k = (cleanEntry row k).map Prod.snd := by
      rw [dget_clean_row, if_pos hk]
    cases hce : cleanEntry row k with
    | none =>
      have : hasKey (_clean_row row) k = false := by
        simp [hasKey, hget, hce]
      simp [cleanEntry, this]
    | some kv =>
      obtain ⟨k', w⟩ := kv
      have hk' : k' = k := cleanEntry_key row k _ hce
      subst hk'
      obtain ⟨hco, htr, hstr⟩ := cleanEntry_some_props row k' _ hce
      have hhk : hasKey (_clean_row row) k' = true := by
        simp [hasKey, hget, hce]
      have hgv : dgetN (_clean_row row) k' = w := by
        simp [dgetN, hget, hce]
      have hco2 : _coerce_bool_int w = w := hco
      have htr2 : _is_trivial w = false := htr
      cases w with
      | s str =>
        obtain ⟨hps, hne⟩ := hstr str rfl
        simp [cleanEntry, hhk, hgv, htr2, _coerce_bool_int, hps, hne]
      | vnone => exact absurd htr2 (by decide)
      | b bb => exact absurd hco2 (coerce_ne_b (Val.b bb) bb)
      | i n => simp [cleanEntry, hhk, hgv, htr2, _coerce_bool_int]
      | l xs => simp [cleanEntry, hhk, hgv, htr2, _coerce_bool_int]
      | d kvs => simp [cleanEntry, hhk, hgv, htr2, _coerce_bool_int]
  calc _clean_row (_clean_row row)
      = _WS_KEEP.filterMap (cleanEntry (_clean_row row)) := rfl
    _ = _WS_KEEP.filterMap (cleanEntry row) := List.filterMap_congr hcongr
    _ = _clean_row row := rfl

end ZVO

namespace ZVO

theorem rowLe_total (x y : Dict) : rowLe x y = true ∨ rowLe y x = true := by
  unfold rowLe
  rcases le_total (rowSortKey x) (rowSortKey y) with h | h
  · exact Or.inl (decide_eq_true h)
  · exact Or.inr (decide_eq_true h)

theorem rowLe_trans (x y z : Dict) (h1 : rowLe x y = true) (h2 : rowLe y z = true) :
    rowLe x z = true := by
  unfold rowLe at h1 h2 ⊢
  exact decide_eq_true (le_trans (of_decide_eq_true h1) (of_decide_eq_true h2))

theorem mem_insertRow (x a : Dict) (ys : List Dict) :
    a ∈ insertRow x ys ↔ a = x ∨ a ∈ ys := by
  induction ys with
  | nil => simp [insertRow]
  | cons y ys ih =>
    rw [insertRow]
    by_cases hc : rowLe x y = true
    · rw [if_pos hc]
      simp [List.mem_cons]
    · rw [if_neg hc]
      simp only [List.mem_cons, ih]
      tauto

theorem mem_sortRows (a : Dict) (xs : List Dict) : a ∈ sortRows xs ↔ a ∈ xs := by
  induction xs with
  | nil => simp [sortRows]
  | cons x xs ih =>
    rw [sortRows, mem_insertRow]
    simp [List.mem_cons, ih]

theorem insertRow_sorted (x : Dict) (ys : List Dict)
    (h : ys.Pairwise (fun a b => rowLe a b = true)) :
    (insertRow x ys).Pairwise (fun a b => rowLe a b = true) := by
  induction ys with
  | nil => simp [insertRow]
  | cons y ys ih =>
    rw [insertRow]
    rcases List.pairwise_cons.mp h with ⟨hy, hys⟩
    by_cases hc : rowLe x y = true
    · rw [if_pos hc]
      refine List.pairwise_cons.mpr ⟨?_, h⟩
      intro b hb
      rcases List.mem_cons.mp hb with rfl | hb
      · exact hc
      · exact rowLe_trans x y b hc (hy b hb)
    · rw [if_neg hc]
      refine List.pairwise_cons.mpr ⟨?_, ih hys⟩
      intro b hb
      rcases (mem_insertRow x b ys).mp hb with rfl | hb
      · rcases rowLe_total b y with h1 | h1
        · exact absurd h1 hc
        · exact h1
      · exact hy b hb

theorem sortRows_sorted (xs : List Dict) :
    (sortRows xs).Pairwise (fun a b => rowLe a b = true) := by
  induction xs with
  | nil => simp [sortRows]
  | cons x xs ih =>
    rw [sortRows]
    exact insertRow_sorted x (sortRows xs) ih

theorem insertRow_cons_of_le (x y : Dict) (ys : List Dict) (h : rowLe x y = true) :
    insertRow x (y :: ys) = x :: y :: ys := by
  rw [insertRow, if_pos h]

theorem sortRows_eq_self (xs : List Dict)
    (h : xs.Pairwise (fun a b => rowLe a b = true)) : sortRows xs = xs := by
  induction xs with
  | nil => rfl
  | cons x xs ih =>
    rcases List.pairwise_cons.mp h with ⟨hx, hxs⟩
    rw [sortRows, ih hxs]
    cases xs with
    | nil => rfl
    | cons y ys => exact insertRow_cons_of_le x y ys (hx y (List.mem_cons_self y ys))

/-- Normalizing already-normalized workspace rows changes nothing. -/
theorem normalize_workspace_rows_idem (v : Val) :
    _normalize_workspace_rows (Val.l (_normalize_workspace_rows v)) =
      _normalize_workspace_rows v := by
  have hmain : ∀ L : List Dict, (∀ d ∈ L, _clean_row d = d) →
      (∀ d ∈ L, (!d.isEmpty) = true) →
      L.Pairwise (fun a b => rowLe a b = true) →
      _normalize_workspace_rows (Val.l (L.map Val.d)) = L.map Val.d := by
    intro L hfix hne hsort
    unfold _normalize_workspace_rows
    simp only []
    have h1 : asList (Val.l (L.map Val.d)) = L.map Val.d := rfl
    rw [h1]
    have h2 : (L.map Val.d).map (fun r => _clean_row (asDict r)) = L := by
      rw [List.map_map]
      have hcg : ∀ d ∈ L, ((fun r => _clean_row (asDict r)) ∘ Val.d) d = id d := by
        intro d hd
        simpa using hfix d hd
      rw [List.map_congr_left hcg, List.map_id]
    rw [h2]
    have h3 : L.filter (fun r => !r.isEmpty) = L := List.filter_eq_self.mpr hne
    rw [h3, sortRows_eq_self L hsort]
  have hfix : ∀ d ∈ sortRows (((asList v).map (fun r => _clean_row (asDict r))).filter
      (fun r => !r.isEmpty)), _clean_row d = d := by
    intro d hd
    have hd2 := (mem_sortRows d _).mp hd
    have hd3 := List.mem_of_mem_filter hd2
    rcases List.mem_map.mp hd3 with ⟨r, _, hr⟩
    rw [← hr, clean_row_idem]
  have hne : ∀ d ∈ sortRows (((asList v).map (fun r => _clean_row (asDict r))).filter
      (fun r => !r.isEmpty)), (!d.isEmpty) = true := by
    intro d hd
    have hd2 := (mem_sortRows d _).mp hd
    exact (List.mem_filter.mp hd2).2
  exact hmain (sortRows (((asList v).map (fun r => _clean_row (asDict r))).filter
    (fun r => !r.isEmpty))) hfix hne (sortRows_sorted _)

end ZVO

namespace ZVO

/-! ## Identity bookkeeping for the apply/replan argument -/

theorem pyEq_congr (a b c : Val) (h : pyEq a b = true) : pyEq a c = pyEq b c := by
  cases hbc : pyEq b c
  · cases hac : pyEq a c
    · rfl
    · have hba : pyEq b a = true := by rw [pyEq_symm]; exact h
      have := pyEq_trans b a c hba hac
      rw [this] at hbc
      cases hbc
  · exact pyEq_trans a b c h hbc

theorem planIdentity_nontax (store : Store) (d : Dict) (h : isTaxDoc d = false) :
    planIdentity store d = dgetN d "name" := by
  unfold planIdentity
  rw [h]
  rfl

theorem planDoc_nontax (store : Store) (d : Dict) (h : isTaxDoc d = false) :
    planDoc store d = d := by
  unfold planDoc
  rw [h]
  rfl

theorem getDoc_cons_self (r : Dict) (rest : Store) (dt nm : Val)
    (h : idMatches r dt nm = true) : getDoc (r :: rest) dt nm = some r := by
  simp [getDoc, List.find?, h]

theorem getDoc_cons_ne (r : Dict) (rest : Store) (dt nm : Val)
    (h : idMatches r dt nm = false) : getDoc (r :: rest) dt nm = getDoc rest dt nm := by
  simp [getDoc, List.find?, h]

theorem getDoc_some_matches (s : Store) (dt nm : Val) (r : Dict)
    (h : getDoc s dt nm = some r) : idMatches r dt nm = true := by
  unfold getDoc at h
  have h2 := List.find?_some h
  exact h2

theorem insertName_createPayload_nontax (d : Dict) (h : isTaxDoc d = false) :
    insertName (createPayload d) = dgetN d "name" := by
  unfold insertName
  rw [createPayload_name, createPayload_doctype, h]
  simp only [Bool.false_eq_true, if_false]
  have hnt : pyEq (dgetN d "doctype") (Val.s taxDT) = false := h
  rw [hnt]
  by_cases ht : truthy (dgetN d "name") = true
  · rw [if_pos ht]
  · rw [if_neg ht]
    simp

/-- The record `doc.insert()` persists for a plan entry. -/
def insertedRecord (d : Dict) : Dict :=
  dset (createPayload d) "name" (insertName (createPayload d))

theorem insertedRecord_doctype (d : Dict) :
    dgetN (insertedRecord d) "doctype" = dgetN d "doctype" := by
  unfold insertedRecord
  rw [show dgetN (dset (createPayload d) "name" (insertName (createPayload d))) "doctype"
      = dgetN (createPayload d) "doctype" from by
    simp [dgetN, dget_dset_ne _ _ _ _ (by decide : "doctype" ≠ "name")]]
  exact createPayload_doctype d

theorem insertedRecord_name (d : Dict) :
    dgetN (insertedRecord d) "name" = insertName (createPayload d) := by
  unfold insertedRecord
  simp [dgetN, dget_dset_self]

theorem idMatches_insertedRecord (d : Dict) (dt nm : Val) (h : isTaxDoc d = false) :
    idMatches (insertedRecord d) dt nm =
      (pyEq (dgetN d "doctype") dt && pyEq (dgetN d "name") nm) := by
  unfold idMatches
  rw [insertedRecord_doctype, insertedRecord_name, insertName_createPayload_nontax d h]

theorem insertedRecord_eq_coerce (d : Dict) (h : isTaxDoc d = false)
    (hk : hasKey d "name" = true) :
    insertedRecord d = _coerce_workspace_json_in_payload d := by
  unfold insertedRecord
  rw [insertName_createPayload_nontax d h]
  unfold createPayload
  rw [h]
  simp only [Bool.false_eq_true, if_false]
  rw [show dgetN d "name" = dgetN (_coerce_workspace_json_in_payload d) "name" from
    (coerce_ws_get d "name" (by decide) (by decide)).symm]
  exact dset_same _ _ (by rw [coerce_ws_hasKey]; exact hk)

end ZVO

namespace ZVO

/-! ## Key-wise characterization of `_normalize_for_compare` -/

theorem childFold_hasKey (ts : List String) (d : Dict) (k : String) :
    hasKey (ts.foldl
      (fun d t => if hasKey d t then dset d t (.l (_normalize_workspace_rows (dgetN d t))) else d)
      d) k = hasKey d k := by
  induction ts generalizing d with
  | nil => rfl
  | cons t ts ih =>
    rw [List.foldl_cons, ih]
    by_cases hc : hasKey d t = true
    · rw [if_pos hc, hasKey_dset]
      by_cases hk : k = t
      · rw [if_pos hk, hk, hc]
      · rw [if_neg hk]
    · rw [if_neg hc]

theorem childFold_get (ts : List String) (hnd : ts.Nodup) (d : Dict) (k : String) :
    dgetN (ts.foldl
      (fun d t => if hasKey d t then dset d t (.l (_normalize_workspace_rows (dgetN d t))) else d)
      d) k =
      if k ∈ ts ∧ hasKey d k = true then .l (_normalize_workspace_rows (dgetN d k))
      else dgetN d k := by
  induction ts generalizing d with
  | nil => simp
  | cons t ts ih =>
    have hnd' : ts.Nodup := (List.nodup_cons.mp hnd).2
    have htm : t ∉ ts := (List.nodup_cons.mp hnd).1
    rw [List.foldl_cons, ih hnd']
    by_cases hkt : k = t
    · subst hkt
      have hknts : k ∉ ts := htm
      by_cases hc : hasKey d k = true
      · rw [if_pos hc]
        rw [if_neg (by simp [hknts])]
        rw [if_pos ⟨List.mem_cons_self k ts, hc⟩]
        simp [dgetN, dget_dset_self]
      · rw [if_neg hc]
        rw [if_neg (by simp [hknts, hc])]
        rw [if_neg (by simp [hc])]
    · by_cases hc : hasKey d t = true
      · rw [if_pos hc]
        have hgk : dgetN (dset d t (.l (_normalize_workspace_rows (dgetN d t)))) k = dgetN d k := by
          simp [dgetN, dget_dset_ne _ _ _ _ hkt]
        have hhk : hasKey (dset d t (.l (_normalize_workspace_rows (dgetN d t)))) k = hasKey d k := by
          rw [hasKey_dset, if_neg hkt]
        rw [hgk, hhk]
        by_cases hin : k ∈ ts
        · by_cases hck : hasKey d k = true
          · rw [if_pos ⟨hin, hck⟩, if_pos ⟨List.mem_cons_of_mem t hin, hck⟩]
          · rw [if_neg (by simp [hck]), if_neg (by simp [hck])]
        · rw [if_neg (by simp [hin])]
          rw [if_neg (by simp [hin, hkt] : ¬(k ∈ t :: ts ∧ hasKey d k = true))]
      · rw [if_neg hc]
        by_cases hin : k ∈ ts
        · by_cases hck : hasKey d k = true
          · rw [if_pos ⟨hin, hck⟩, if_pos ⟨List.mem_cons_of_mem t hin, hck⟩]
          · rw [if_neg (by simp [hck]), if_neg (by simp [hck])]
        · rw [if_neg (by simp [hin])]
          rw [if_neg (by simp [hin, hkt] : ¬(k ∈ t :: ts ∧ hasKey d k = true))]

theorem childFold_nodupKeys (ts : List String) (d : Dict) (h : nodupKeys d) :
    nodupKeys (ts.foldl
      (fun d t => if hasKey d t then dset d t (.l (_normalize_workspace_rows (dgetN d t))) else d)
      d) := by
  induction ts generalizing d with
  | nil => exact h
  | cons t ts ih =>
    rw [List.foldl_cons]
    by_cases hc : hasKey d t = true
    · rw [if_pos hc]
      exact ih _ (nodupKeys_dset _ _ _ h)
    · rw [if_neg hc]
      exact ih _ h

theorem norm_not_ws (x : Dict) (h : pyEq (dgetN x "doctype") (.s "Workspace") = false) :
    _normalize_for_compare x = dpop x "content" := by
  unfold _normalize_for_compare
  simp only []
  rw [show dgetN (dpop x "content") "doctype" = dgetN x "doctype" from by
    rw [dgetN_dpop]; simp]
  rw [h]
  simp

theorem norm_ws (x : Dict) (h : pyEq (dgetN x "doctype") (.s "Workspace") = true) :
    _normalize_for_compare x =
      _WS_CHILD_TABLES.foldl
        (fun d t => if hasKey d t then dset d t (.l (_normalize_workspace_rows (dgetN d t))) else d)
        (dpop (dpop (dpop x "content") "sequence_id") "onboarding_list") := by
  unfold _normalize_for_compare
  simp only []
  rw [show dgetN (dpop x "content") "doctype" = dgetN x "doctype" from by
    rw [dgetN_dpop]; simp]
  rw [h]
  simp

theorem norm_hasKey_content (x : Dict) :
    hasKey (_normalize_for_compare x) "content" = false := by
  by_cases hws : pyEq (dgetN x "doctype") (.s "Workspace") = true
  · rw [norm_ws x hws, childFold_hasKey]
    rw [hasKey_dpop, if_neg (by decide), hasKey_dpop, if_neg (by decide),
      hasKey_dpop, if_pos rfl]
  · have hws' : pyEq (dgetN x "doctype") (.s "Workspace") = false := by
      revert hws; cases pyEq (dgetN x "doctype") (.s "Workspace") <;> simp
    rw [norm_not_ws x hws', hasKey_dpop, if_pos rfl]

theorem norm_hasKey (x : Dict) (k : String) (hk : k ≠ "content") :
    hasKey (_normalize_for_compare x) k =
      if pyEq (dgetN x "doctype") (.s "Workspace") = true then
        (if k = "sequence_id" ∨ k = "onboarding_list" then false else hasKey x k)
      else hasKey x k := by
  by_cases hws : pyEq (dgetN x "doctype") (.s "Workspace") = true
  · rw [norm_ws x hws, childFold_hasKey, if_pos hws]
    rw [hasKey_dpop, hasKey_dpop, hasKey_dpop, if_neg hk]
    by_cases h1 : k = "onboarding_list"
    · rw [if_pos h1, if_pos (Or.inr h1)]
    · rw [if_neg h1]
      by_cases h2 : k = "sequence_id"
      · rw [if_pos h2, if_pos (Or.inl h2)]
      · rw [if_neg h2, if_neg (by simp [h1, h2])]
  · have hws' : pyEq (dgetN x "doctype") (.s "Workspace") = false := by
      revert hws; cases pyEq (dgetN x "doctype") (.s "Workspace") <;> simp
    rw [norm_not_ws x hws', hasKey_dpop, if_neg hk, if_neg (by simp [hws'])]

theorem norm_get (x : Dict) (k : String) (hk : k ≠ "content") :
    dgetN (_normalize_for_compare x) k =
      if pyEq (dgetN x "doctype") (.s "Workspace") = true then
        (if k = "sequence_id" ∨ k = "onboarding_list" then .vnone
         else if k ∈ _WS_CHILD_TABLES ∧ hasKey x k = true then
           .l (_normalize_workspace_rows (dgetN x k))
         else dgetN x k)
      else dgetN x k := by
  by_cases hws : pyEq (dgetN x "doctype") (.s "Workspace") = true
  · rw [norm_ws x hws, if_pos hws]
    rw [childFold_get _ (by decide) _ k]
    by_cases h1 : k = "sequence_id" ∨ k = "onboarding_list"
    · rw [if_pos h1]
      have hnotct : k ∉ _WS_CHILD_TABLES := by
        rcases h1 with h1 | h1 <;> subst h1 <;> decide
      rw [if_neg (by simp [hnotct])]
      rcases h1 with h1 | h1 <;> subst h1 <;> simp [dgetN_dpop]
    · rw [if_neg h1]
      have h2 : k ≠ "sequence_id" := fun hc => h1 (Or.inl hc)
      have h3 : k ≠ "onboarding_list" := fun hc => h1 (Or.inr hc)
      have hgd : dgetN (dpop (dpop (dpop x "content") "sequence_id") "onboarding_list") k
          = dgetN x k := by
        rw [dgetN_dpop, if_neg h3, dgetN_dpop, if_neg h2, dgetN_dpop, if_neg hk]
      have hhd : hasKey (dpop (dpop (dpop x "content") "sequence_id") "onboarding_list") k
          = hasKey x k := by
        rw [hasKey_dpop, if_neg h3, hasKey_dpop, if_neg h2, hasKey_dpop, if_neg hk]
      rw [hgd, hhd]
  · have hws' : pyEq (dgetN x "doctype") (.s "Workspace") = false := by
      revert hws; cases pyEq (dgetN x "doctype") (.s "Workspace") <;> simp
    rw [norm_not_ws x hws', dgetN_dpop, if_neg hk, if_neg (by simp [hws'])]

theorem norm_nodupKeys (x : Dict) (h : nodupKeys x) :
    nodupKeys (_normalize_for_compare x) := by
  by_cases hws : pyEq (dgetN x "doctype") (.s "Workspace") = true
  · rw [norm_ws x hws]
    exact childFold_nodupKeys _ _ (nodupKeys_dpop _ _ (nodupKeys_dpop _ _ (nodupKeys_dpop _ _ h)))
  · have hws' : pyEq (dgetN x "doctype") (.s "Workspace") = false := by
      revert hws; cases pyEq (dgetN x "doctype") (.s "Workspace") <;> simp
    rw [norm_not_ws x hws']
    exact nodupKeys_dpop _ _ h

end ZVO

namespace ZVO

/-! ## Empty-delta lemmas -/

theorem deltaOf_eq_nil (cur new : Dict)
    (h : ∀ k v, (k, v) ∈ new → k ≠ "doctype" → k ≠ "name" → pyEq (dgetN cur k) v = true) :
    deltaOf cur new = [] := by
  unfold deltaOf
  rw [List.filter_eq_nil_iff]
  intro kv hkv
  obtain ⟨k, v⟩ := kv
  by_cases h1 : k = "doctype"
  · simp [h1]
  · by_cases h2 : k = "name"
    · simp [h2]
    · simp [h1, h2, h k v hkv h1 h2]

theorem delta_norm_coerce_nil (d : Dict) (hnd : nodupKeys d) :
    deltaOf (_normalize_for_compare (_coerce_workspace_json_in_payload d))
      (_normalize_for_compare d) = [] := by
  apply deltaOf_eq_nil
  intro k v hkv h1 h2
  have hndn : nodupKeys (_normalize_for_compare d) := norm_nodupKeys d hnd
  have hv : dget (_normalize_for_compare d) k = some v := mem_dget_of_nodup hndn hkv
  have hvN : dgetN (_normalize_for_compare d) k = v := by simp [dgetN, hv]
  have hkk : hasKey (_normalize_for_compare d) k = true := by simp [hasKey, hv]
  have hkc : k ≠ "content" := by
    intro hc
    subst hc
    rw [norm_hasKey_content] at hkk
    cases hkk
  by_cases hws : pyEq (dgetN d "doctype") (.s "Workspace") = true
  · have hko : k ≠ "sequence_id" ∧ k ≠ "onboarding_list" := by
      rw [norm_hasKey d k hkc, if_pos hws] at hkk
      by_cases hx : k = "sequence_id" ∨ k = "onboarding_list"
      · rw [if_pos hx] at hkk
        cases hkk
      · exact ⟨fun hc => hx (Or.inl hc), fun hc => hx (Or.inr hc)⟩
    rw [show dgetN (_normalize_for_compare (_coerce_workspace_json_in_payload d)) k =
        dgetN (_normalize_for_compare d) k from by
      rw [norm_get _ k hkc, norm_get _ k hkc,
        coerce_ws_get d "doctype" (by decide) (by decide),
        coerce_ws_hasKey, coerce_ws_get d k hkc hko.2]]
    rw [hvN]
    exact pyEq_refl v
  · have hws' : pyEq (dgetN d "doctype") (.s "Workspace") = false := by
      revert hws; cases pyEq (dgetN d "doctype") (.s "Workspace") <;> simp
    rw [coerce_ws_of_not_workspace d hws', hvN]
    exact pyEq_refl v

end ZVO

namespace ZVO

theorem delta_key_ne (cur new : Dict) (k : String) (v : Val)
    (h : (k, v) ∈ deltaOf cur new) :
    k ≠ "doctype" ∧ k ≠ "name" ∧ (k, v) ∈ new ∧ pyEq (dgetN cur k) v = false := by
  unfold deltaOf at h
  obtain ⟨hmem, hp⟩ := List.mem_filter.mp h
  simp only [Bool.and_eq_true, bne_iff_ne, Bool.not_eq_true'] at hp
  exact ⟨hp.1.1, hp.1.2, hmem, hp.2⟩

theorem dget_idpair (dt0 nm0 : Val) (delta : Dict) (k : String)
    (h1 : k ≠ "doctype") (h2 : k ≠ "name") :
    dget (("doctype", dt0) :: ("name", nm0) :: delta) k = dget delta k := by
  simp [dget, Ne.symm h1, Ne.symm h2]

theorem nodupKeys_idpair_delta (cur new : Dict) (dt0 nm0 : Val) (hnd : nodupKeys new) :
    nodupKeys (("doctype", dt0) :: ("name", nm0) :: deltaOf cur new) := by
  unfold nodupKeys
  simp only [List.map_cons]
  refine List.nodup_cons.mpr ⟨?_, List.nodup_cons.mpr ⟨?_, ?_⟩⟩
  · intro hc
    rcases List.mem_cons.mp hc with hc | hc
    · exact absurd hc (by decide)
    · rcases List.mem_map.mp hc with ⟨⟨k0, v0⟩, hm, hk0⟩
      exact (delta_key_ne _ _ _ _ hm).1 hk0
  · intro hc
    rcases List.mem_map.mp hc with ⟨⟨k0, v0⟩, hm, hk0⟩
    exact (delta_key_ne _ _ _ _ hm).2.1 hk0
  · exact nodupKeys_filter _ _ hnd

/-- After `_apply_plan`'s update loop writes the planned delta into the
persisted record, the normalized comparison of that record against the
same desired document is empty: every written field reads back
`pyEq`-equal (workspace child tables through the row normalizer's
idempotence), and every unwritten field still compares equal exactly as
it did when the delta was computed. -/
theorem delta_after_update_nil (cur d : Dict) (nm : Val) (hndd : nodupKeys d)
    (hdoct : pyEq (dgetN cur "doctype") (dgetN d "doctype") = true) :
    deltaOf
      (_normalize_for_compare (updateFieldsFrom cur
        ([("doctype", dgetN d "doctype"), ("name", nm)] ++
          deltaOf (_normalize_for_compare cur) (_normalize_for_compare d))
        (pyEq (dgetN d "doctype") (.s "Workspace"))))
      (_normalize_for_compare d) = [] := by
  simp only [List.cons_append, List.nil_append]
  apply deltaOf_eq_nil
  intro k v hkv h1 h2
  have hndnd : nodupKeys (_normalize_for_compare d) := norm_nodupKeys d hndd
  have hv : dget (_normalize_for_compare d) k = some v := mem_dget_of_nodup hndnd hkv
  have hvN : dgetN (_normalize_for_compare d) k = v := by simp [dgetN, hv]
  have hkk : hasKey (_normalize_for_compare d) k = true := by simp [hasKey, hv]
  have hkc : k ≠ "content" := by
    intro hc
    subst hc
    rw [norm_hasKey_content] at hkk
    cases hkk
  have hseq : pyEq (dgetN d "doctype") (.s "Workspace") = true →
      k ≠ "sequence_id" ∧ k ≠ "onboarding_list" := by
    intro hws
    have h := hkk
    rw [norm_hasKey d k hkc, if_pos hws] at h
    by_cases hx : k = "sequence_id" ∨ k = "onboarding_list"
    · rw [if_pos hx] at h
      cases h
    · exact ⟨fun hc => hx (Or.inl hc), fun hc => hx (Or.inr hc)⟩
  have hhkd : pyEq (dgetN d "doctype") (.s "Workspace") = true → hasKey d k = true := by
    intro hws
    have h := hkk
    rw [norm_hasKey d k hkc, if_pos hws,
      if_neg (by simp [(hseq hws).1, (hseq hws).2])] at h
    exact h
  have hvCT : pyEq (dgetN d "doctype") (.s "Workspace") = true → k ∈ _WS_CHILD_TABLES →
      v = .l (_normalize_workspace_rows (dgetN d k)) := by
    intro hws hct
    rw [← hvN, norm_get d k hkc, if_pos hws,
      if_neg (by simp [(hseq hws).1, (hseq hws).2]), if_pos ⟨hct, hhkd hws⟩]
  have hnde : nodupKeys (("doctype", dgetN d "doctype") :: ("name", nm) ::
      deltaOf (_normalize_for_compare cur) (_normalize_for_compare d)) :=
    nodupKeys_idpair_delta _ _ _ _ hndnd
  have hget := updateFieldsFrom_get
    (("doctype", dgetN d "doctype") :: ("name", nm) ::
      deltaOf (_normalize_for_compare cur) (_normalize_for_compare d))
    cur (pyEq (dgetN d "doctype") (.s "Workspace")) k hnde
  rw [dget_idpair _ _ _ k h1 h2] at hget
  have hhk := updateFieldsFrom_hasKey
    (("doctype", dgetN d "doctype") :: ("name", nm) ::
      deltaOf (_normalize_for_compare cur) (_normalize_for_compare d))
    cur (pyEq (dgetN d "doctype") (.s "Workspace")) k
  have hdoct' : dgetN (updateFieldsFrom cur
      (("doctype", dgetN d "doctype") :: ("name", nm) ::
        deltaOf (_normalize_for_compare cur) (_normalize_for_compare d))
      (pyEq (dgetN d "doctype") (.s "Workspace"))) "doctype" = dgetN cur "doctype" :=
    updateFieldsFrom_doctype _ _ _
  have hwscur : pyEq (dgetN cur "doctype") (.s "Workspace")
      = pyEq (dgetN d "doctype") (.s "Workspace") :=
    pyEq_congr _ _ _ hdoct
  cases hdg : dget (deltaOf (_normalize_for_compare cur) (_normalize_for_compare d)) k with
  | some w =>
    have hmemd := dget_some_mem hdg
    obtain ⟨_, _, hmemn, _⟩ := delta_key_ne _ _ _ _ hmemd
    have hw : w = v := by
      have hx := mem_dget_of_nodup hndnd hmemn
      rw [hv] at hx
      exact (Option.some.inj hx).symm
    subst hw
    rw [hdg] at hget
    replace hget : dgetN (updateFieldsFrom cur
        (("doctype", dgetN d "doctype") :: ("name", nm) ::
          deltaOf (_normalize_for_compare cur) (_normalize_for_compare d))
        (pyEq (dgetN d "doctype") (.s "Workspace"))) k =
        (if k = "doctype" ∨ k = "name" then dgetN cur k
         else if pyEq (dgetN d "doctype") (.s "Workspace") = true
             ∧ (k = "content" ∨ k = "onboarding_list") then _jsonify_array w
         else w) := hget
    rw [if_neg (by simp [h1, h2])] at hget
    have hget2 : dgetN (updateFieldsFrom cur
        (("doctype", dgetN d "doctype") :: ("name", nm) ::
          deltaOf (_normalize_for_compare cur) (_normalize_for_compare d))
        (pyEq (dgetN d "doctype") (.s "Workspace"))) k = w := by
      rw [hget]
      by_cases hws : pyEq (dgetN d "doctype") (.s "Workspace") = true
      · rw [if_neg (by simp [hkc, (hseq hws).2])]
      · rw [if_neg (by simp [hws])]
    have hhk2 : hasKey (updateFieldsFrom cur
        (("doctype", dgetN d "doctype") :: ("name", nm) ::
          deltaOf (_normalize_for_compare cur) (_normalize_for_compare d))
        (pyEq (dgetN d "doctype") (.s "Workspace"))) k = true := by
      rw [hhk]
      have hek : hasKey (("doctype", dgetN d "doctype") :: ("name", nm) ::
          deltaOf (_normalize_for_compare cur) (_normalize_for_compare d)) k = true := by
        unfold hasKey
        rw [dget_idpair _ _ _ k h1 h2, hdg]
        rfl
      rw [hek]
      simp [h1, h2]
    rw [norm_get _ k hkc, hdoct', hwscur]
    by_cases hws : pyEq (dgetN d "doctype") (.s "Workspace") = true
    · rw [if_pos hws, if_neg (by simp [(hseq hws).1, (hseq hws).2])]
      by_cases hct : k ∈ _WS_CHILD_TABLES
      · rw [if_pos ⟨hct, hhk2⟩, hget2, hvCT hws hct, normalize_workspace_rows_idem]
        exact pyEq_refl _
      · rw [if_neg (by simp [hct]), hget2]
        exact pyEq_refl _
    · rw [if_neg hws, hget2]
      exact pyEq_refl _
  | none =>
    have hplan : pyEq (dgetN (_normalize_for_compare cur) k) v = true := by
      by_cases hp : pyEq (dgetN (_normalize_for_compare cur) k) v = true
      · exact hp
      · have hp' : pyEq (dgetN (_normalize_for_compare cur) k) v = false := by
          revert hp; cases pyEq (dgetN (_normalize_for_compare cur) k) v <;> simp
        have hmem : (k, v) ∈ deltaOf (_normalize_for_compare cur) (_normalize_for_compare d) := by
          unfold deltaOf
          refine List.mem_filter.mpr ⟨hkv, ?_⟩
          simp [h1, h2, hp']
        have hkmem : hasKey (deltaOf (_normalize_for_compare cur) (_normalize_for_compare d)) k
            = true := by
          rw [hasKey_iff_mem_keys]
          exact List.mem_map.mpr ⟨(k, v), hmem, rfl⟩
        rw [show hasKey (deltaOf (_normalize_for_compare cur) (_normalize_for_compare d)) k
            = false from by unfold hasKey; rw [hdg]; rfl] at hkmem
        cases hkmem
    rw [hdg] at hget
    replace hget : dgetN (updateFieldsFrom cur
        (("doctype", dgetN d "doctype") :: ("name", nm) ::
          deltaOf (_normalize_for_compare cur) (_normalize_for_compare d))
        (pyEq (dgetN d "doctype") (.s "Workspace"))) k = dgetN cur k := hget
    have hhk2 : hasKey (updateFieldsFrom cur
        (("doctype", dgetN d "doctype") :: ("name", nm) ::
          deltaOf (_normalize_for_compare cur) (_normalize_for_compare d))
        (pyEq (dgetN d "doctype") (.s "Workspace"))) k = hasKey cur k := by
      rw [hhk]
      have hek : hasKey (("doctype", dgetN d "doctype") :: ("name", nm) ::
          deltaOf (_normalize_for_compare cur) (_normalize_for_compare d)) k = false := by
        unfold hasKey
        rw [dget_idpair _ _ _ k h1 h2, hdg]
        rfl
      rw [hek]
      simp
    rw [norm_get _ k hkc, hdoct']
    rw [← hwscur] at hseq
    have hback : pyEq (dgetN (_normalize_for_compare cur) k) v = true := hplan
    rw [norm_get cur k hkc] at hback
    by_cases hws : pyEq (dgetN cur "doctype") (.s "Workspace") = true
    · rw [if_pos hws]
      rw [if_pos hws] at hback
      rw [if_neg (by simp [(hseq hws).1, (hseq hws).2])]
      rw [if_neg (by simp [(hseq hws).1, (hseq hws).2])] at hback
      by_cases hct : k ∈ _WS_CHILD_TABLES
      · by_cases hckk : hasKey cur k = true
        · rw [if_pos ⟨hct, by rw [hhk2]; exact hckk⟩, hget]
          rw [if_pos ⟨hct, hckk⟩] at hback
          exact hback
        · rw [if_neg (by simp [hckk, hhk2])]
          rw [if_neg (by simp [hckk])] at hback
          rw [hget]
          exact hback
      · rw [if_neg (by simp [hct])]
        rw [if_neg (by simp [hct])] at hback
        rw [hget]
        exact hback
    · rw [if_neg hws]
      rw [if_neg hws] at hback
      rw [hget]
      exact hback

end ZVO

namespace ZVO

/-! ## Inversion of the per-document classification -/

theorem classifyDoc_create_inv (store : Store) (d0 d' : Dict)
    (h : classifyDoc store d0 = .create d') :
    d' = planDoc store d0 ∧
      getDoc store (dgetN d0 "doctype") (planIdentity store d0) = none := by
  unfold classifyDoc at h
  simp only [] at h
  cases hg : getDoc store (dgetN d0 "doctype") (planIdentity store d0) with
  | none =>
    rw [hg] at h
    replace h : PlanItem.create (planDoc store d0) = .create d' := h
    injection h with h2
    exact ⟨h2.symm, rfl⟩
  | some cur =>
    rw [hg] at h
    replace h : (if (!(deltaOf (_normalize_for_compare cur)
          (_normalize_for_compare (planDoc store d0))).isEmpty) = true then
        PlanItem.update ([("doctype", dgetN d0 "doctype"), ("name", planIdentity store d0)] ++
          deltaOf (_normalize_for_compare cur) (_normalize_for_compare (planDoc store d0)))
      else PlanItem.noop [("doctype", dgetN d0 "doctype"), ("name", planIdentity store d0)]) =
      .create d' := h
    by_cases hd : (!(deltaOf (_normalize_for_compare cur)
        (_normalize_for_compare (planDoc store d0))).isEmpty) = true
    · rw [if_pos hd] at h
      cases h
    · rw [if_neg hd] at h
      cases h

theorem classifyDoc_update_inv (store : Store) (d0 e : Dict)
    (h : classifyDoc store d0 = .update e) :
    ∃ cur, getDoc store (dgetN d0 "doctype") (planIdentity store d0) = some cur ∧
      e = [("doctype", dgetN d0 "doctype"), ("name", planIdentity store d0)] ++
        deltaOf (_normalize_for_compare cur) (_normalize_for_compare (planDoc store d0)) := by
  unfold classifyDoc at h
  simp only [] at h
  cases hg : getDoc store (dgetN d0 "doctype") (planIdentity store d0) with
  | none =>
    rw [hg] at h
    replace h : PlanItem.create (planDoc store d0) = .update e := h
    cases h
  | some cur =>
    rw [hg] at h
    replace h : (if (!(deltaOf (_normalize_for_compare cur)
          (_normalize_for_compare (planDoc store d0))).isEmpty) = true then
        PlanItem.update ([("doctype", dgetN d0 "doctype"), ("name", planIdentity store d0)] ++
          deltaOf (_normalize_for_compare cur) (_normalize_for_compare (planDoc store d0)))
      else PlanItem.noop [("doctype", dgetN d0 "doctype"), ("name", planIdentity store d0)]) =
      .update e := h
    by_cases hd : (!(deltaOf (_normalize_for_compare cur)
        (_normalize_for_compare (planDoc store d0))).isEmpty) = true
    · rw [if_pos hd] at h
      injection h with h2
      exact ⟨cur, rfl, h2.symm⟩
    · rw [if_neg hd] at h
      cases h

theorem classifyDoc_noop_inv (store : Store) (d0 e : Dict)
    (h : classifyDoc store d0 = .noop e) :
    ∃ cur, getDoc store (dgetN d0 "doctype") (planIdentity store d0) = some cur ∧
      deltaOf (_normalize_for_compare cur) (_normalize_for_compare (planDoc store d0)) = [] := by
  unfold classifyDoc at h
  simp only [] at h
  cases hg : getDoc store (dgetN d0 "doctype") (planIdentity store d0) with
  | none =>
    rw [hg] at h
    replace h : PlanItem.create (planDoc store d0) = .noop e := h
    cases h
  | some cur =>
    rw [hg] at h
    replace h : (if (!(deltaOf (_normalize_for_compare cur)
          (_normalize_for_compare (planDoc store d0))).isEmpty) = true then
        PlanItem.update ([("doctype", dgetN d0 "doctype"), ("name", planIdentity store d0)] ++
          deltaOf (_normalize_for_compare cur) (_normalize_for_compare (planDoc store d0)))
      else PlanItem.noop [("doctype", dgetN d0 "doctype"), ("name", planIdentity store d0)]) =
      .noop e := h
    by_cases hd : (!(deltaOf (_normalize_for_compare cur)
        (_normalize_for_compare (planDoc store d0))).isEmpty) = true
    · rw [if_pos hd] at h
      cases h
    · rw [if_neg hd] at h
      refine ⟨cur, rfl, ?_⟩
      have hd2 : (deltaOf (_normalize_for_compare cur)
          (_normalize_for_compare (planDoc store d0))).isEmpty = true := by
        revert hd
        cases (deltaOf (_normalize_for_compare cur)
          (_normalize_for_compare (planDoc store d0))).isEmpty <;> simp
      exact List.isEmpty_iff.mp hd2

theorem classifyDoc_noop_of (store : Store) (d0 cur : Dict)
    (hget : getDoc store (dgetN d0 "doctype") (planIdentity store d0) = some cur)
    (hdelta : deltaOf (_normalize_for_compare cur)
      (_normalize_for_compare (planDoc store d0)) = []) :
    classifyDoc store d0 =
      .noop [("doctype", dgetN d0 "doctype"), ("name", planIdentity store d0)] := by
  unfold classifyDoc
  simp only []
  rw [hget]
  show (if (!(deltaOf (_normalize_for_compare cur)
        (_normalize_for_compare (planDoc store d0))).isEmpty) = true then
      PlanItem.update ([("doctype", dgetN d0 "doctype"), ("name", planIdentity store d0)] ++
        deltaOf (_normalize_for_compare cur) (_normalize_for_compare (planDoc store d0)))
    else PlanItem.noop [("doctype", dgetN d0 "doctype"), ("name", planIdentity store d0)]) =
    .noop [("doctype", dgetN d0 "doctype"), ("name", planIdentity store d0)]
  rw [hdelta]
  rw [if_neg (by decide)]

/-! ## The plan as three `filterMap`s over the blueprint -/

theorem plan_changes_foldl (store : Store) (docs : List Dict) : ∀ (p : Plan),
    docs.foldl (fun plan d =>
      match classifyDoc store d with
      | .create d' => { plan with create := plan.create ++ [d'] }
      | .update e => { plan with update := plan.update ++ [e] }
      | .noop e => { plan with noop := plan.noop ++ [e] }) p =
    ⟨p.create ++ docs.filterMap (fun d => match classifyDoc store d with
        | .create d' => some d' | _ => none),
     p.update ++ docs.filterMap (fun d => match classifyDoc store d with
        | .update e => some e | _ => none),
     p.noop ++ docs.filterMap (fun d => match classifyDoc store d with
        | .noop e => some e | _ => none)⟩ := by
  induction docs with
  | nil => intro p; simp
  | cons d docs ih =>
    intro p
    rw [List.foldl_cons]
    cases hc : classifyDoc store d with
    | create d' =>
      simp only []
      rw [ih]
      simp [List.filterMap_cons, hc, List.append_assoc]
    | update e =>
      simp only []
      rw [ih]
      simp [List.filterMap_cons, hc, List.append_assoc]
    | noop e =>
      simp only []
      rw [ih]
      simp [List.filterMap_cons, hc, List.append_assoc]

theorem plan_changes_eq (store : Store) (docs : List Dict) :
    _plan_changes store docs =
      ⟨docs.filterMap (fun d => match classifyDoc store d with
          | .create d' => some d' | _ => none),
       docs.filterMap (fun d => match classifyDoc store d with
          | .update e => some e | _ => none),
       docs.filterMap (fun d => match classifyDoc store d with
          | .noop e => some e | _ => none)⟩ := by
  unfold _plan_changes
  rw [plan_changes_foldl]
  simp

theorem plan_changes_noop_empty (store : Store) (docs : List Dict)
    (h : ∀ d ∈ docs, ∃ e, classifyDoc store d = .noop e) :
    (_plan_changes store docs).create = [] ∧ (_plan_changes store docs).update = [] := by
  rw [plan_changes_eq]
  constructor <;>
  · simp only []
    rw [List.filterMap_eq_nil]
    intro d hd
    obtain ⟨e, he⟩ := h d hd
    rw [he]

end ZVO

namespace ZVO

/-! ## How the applied store answers identity queries -/

theorem getDoc_updateStore_self (s : Store) (dt nm : Val) (f : Dict → Dict)
    (hf : ∀ r, dgetN (f r) "doctype" = dgetN r "doctype"
      ∧ dgetN (f r) "name" = dgetN r "name") :
    getDoc (updateStore s dt nm f) dt nm = (getDoc s dt nm).map f := by
  induction s with
  | nil => rfl
  | cons r rest ih =>
    rw [updateStore]
    by_cases hm : idMatches r dt nm = true
    · rw [if_pos hm]
      have hfm : idMatches (f r) dt nm = true := by
        unfold idMatches at hm ⊢
        rw [(hf r).1, (hf r).2]
        exact hm
      rw [getDoc_cons_self _ _ _ _ hfm, getDoc_cons_self _ _ _ _ hm]
      rfl
    · have hm' : idMatches r dt nm = false := by
        revert hm; cases idMatches r dt nm <;> simp
      rw [if_neg hm]
      rw [getDoc_cons_ne _ _ _ _ hm']
      rw [getDoc_cons_ne _ _ _ _ hm']
      exact ih

theorem getDoc_updateStore_ne (s : Store) (dt1 nm1 dt2 nm2 : Val) (f : Dict → Dict)
    (hne : (pyEq dt1 dt2 && pyEq nm1 nm2) = false)
    (hf : ∀ r, dgetN (f r) "doctype" = dgetN r "doctype"
      ∧ dgetN (f r) "name" = dgetN r "name") :
    getDoc (updateStore s dt1 nm1 f) dt2 nm2 = getDoc s dt2 nm2 := by
  induction s with
  | nil => rfl
  | cons r rest ih =>
    rw [updateStore]
    by_cases hm : idMatches r dt1 nm1 = true
    · rw [if_pos hm]
      have h2 : idMatches r dt2 nm2 = false := by
        cases h2 : idMatches r dt2 nm2
        · rfl
        · exfalso
          unfold idMatches at hm h2
          rw [Bool.and_eq_true] at hm h2
          have hdt : pyEq dt1 dt2 = true :=
            pyEq_trans _ _ _ (by rw [pyEq_symm]; exact hm.1) h2.1
          have hnm : pyEq nm1 nm2 = true :=
            pyEq_trans _ _ _ (by rw [pyEq_symm]; exact hm.2) h2.2
          rw [hdt, hnm] at hne
          cases hne
      have h2f : idMatches (f r) dt2 nm2 = false := by
        unfold idMatches at h2 ⊢
        rw [(hf r).1, (hf r).2]
        exact h2
      rw [getDoc_cons_ne _ _ _ _ h2f, getDoc_cons_ne _ _ _ _ h2]
    · rw [if_neg hm]
      by_cases h2 : idMatches r dt2 nm2 = true
      · rw [getDoc_cons_self _ _ _ _ h2, getDoc_cons_self _ _ _ _ h2]
      · have h2' : idMatches r dt2 nm2 = false := by
          revert h2; cases idMatches r dt2 nm2 <;> simp
        rw [getDoc_cons_ne _ _ _ _ h2', getDoc_cons_ne _ _ _ _ h2', ih]

/-- One step of `_apply_plan`'s update loop, as it acts on the store. -/
def updStep (s : Store) (e : Dict) : Store :=
  updateStore s (dgetN e "doctype") (dgetN e "name")
    (fun doc => updateFieldsFrom doc e (pyEq (dgetN e "doctype") (.s "Workspace")))

theorem getDoc_foldl_updStep_ne (es : List Dict) (s : Store) (dt nm : Val)
    (h : ∀ e ∈ es, (pyEq (dgetN e "doctype") dt && pyEq (dgetN e "name") nm) = false) :
    getDoc (es.foldl updStep s) dt nm = getDoc s dt nm := by
  induction es generalizing s with
  | nil => rfl
  | cons e es ih =>
    rw [List.foldl_cons, ih _ (fun x hx => h x (List.mem_cons_of_mem _ hx))]
    exact getDoc_updateStore_ne _ _ _ _ _ _ (h e (List.mem_cons_self _ _))
      (fun r => ⟨updateFieldsFrom_doctype _ _ _, updateFieldsFrom_name _ _ _⟩)

theorem getDoc_foldl_updStep_self (pre post : List Dict) (e : Dict) (s : Store) (dt nm : Val)
    (hdt : dgetN e "doctype" = dt) (hnm : dgetN e "name" = nm)
    (hpre : ∀ x ∈ pre, (pyEq (dgetN x "doctype") dt && pyEq (dgetN x "name") nm) = false)
    (hpost : ∀ x ∈ post, (pyEq (dgetN x "doctype") dt && pyEq (dgetN x "name") nm) = false) :
    getDoc ((pre ++ e :: post).foldl updStep s) dt nm =
      (getDoc s dt nm).map
        (fun doc => updateFieldsFrom doc e (pyEq (dgetN e "doctype") (.s "Workspace"))) := by
  rw [List.foldl_append, List.foldl_cons]
  rw [getDoc_foldl_updStep_ne post _ dt nm hpost]
  rw [show updStep (pre.foldl updStep s) e = updateStore (pre.foldl updStep s) dt nm
      (fun doc => updateFieldsFrom doc e (pyEq (dgetN e "doctype") (.s "Workspace"))) from by
    unfold updStep
    rw [hdt, hnm]]
  rw [getDoc_updateStore_self _ dt nm _
    (fun r => ⟨updateFieldsFrom_doctype _ _ _, updateFieldsFrom_name _ _ _⟩)]
  rw [getDoc_foldl_updStep_ne pre _ dt nm hpre]

end ZVO

namespace ZVO

/-! ## What a successful apply did to the store -/

theorem applyCreates_ok_inv (ds : List Dict) (hnotax : ∀ d ∈ ds, isTaxDoc d = false) :
    ∀ (s : Store) (out : Store × List (Val × Val) × List (Val × Val)),
      applyCreates s ds = .ok out →
      out = (s ++ ds.map insertedRecord,
        ds.map (fun d => (dgetN (createPayload d) "doctype", insertName (createPayload d))),
        []) := by
  induction ds with
  | nil =>
    intro s out h
    replace h : (Except.ok (s, [], []) :
        Except ApplyErr (Store × List (Val × Val) × List (Val × Val))) = .ok out := h
    injection h with h2
    rw [← h2]
    simp
  | cons d rest ih =>
    intro s out h
    unfold applyCreates at h
    simp only [] at h
    cases hins : insertDoc s (createPayload d) with
    | ok pr =>
      obtain ⟨s1, nm⟩ := pr
      have hfacts : s1 = s ++ [insertedRecord d] ∧ nm = insertName (createPayload d) := by
        unfold insertDoc at hins
        simp only [] at hins
        by_cases hex : dbExists s (dgetN (createPayload d) "doctype")
            (insertName (createPayload d)) = true
        · rw [if_pos hex] at hins
          cases hins
        · rw [if_neg hex] at hins
          replace hins : (Except.ok
              (s ++ [dset (createPayload d) "name" (insertName (createPayload d))],
                insertName (createPayload d)) :
              Except ApplyErr (Store × Val)) = .ok (s1, nm) := hins
          injection hins with h2
          injection h2 with ha hb
          exact ⟨ha.symm, hb.symm⟩
      simp only [hins] at h
      cases hrec : applyCreates s1 rest with
      | error e2 =>
        rw [hrec] at h
        replace h : (Except.error e2 :
            Except ApplyErr (Store × List (Val × Val) × List (Val × Val))) = .ok out := h
        cases h
      | ok out2 =>
        obtain ⟨s2, created, fb⟩ := out2
        rw [hrec] at h
        replace h : (Except.ok
            (s2, (dgetN (createPayload d) "doctype", nm) :: created, fb) :
            Except ApplyErr (Store × List (Val × Val) × List (Val × Val))) = .ok out := h
        injection h with h2
        have hih := ih (fun x hx => hnotax x (List.mem_cons_of_mem _ hx)) s1 (s2, created, fb) hrec
        injection hih with hs2 hrest
        injection hrest with hcreated hfb
        rw [← h2, hs2, hcreated, hfb, hfacts.1, hfacts.2]
        simp
    | error e1 =>
      simp only [hins] at h
      rw [show isTaxDoc d = false from hnotax d (List.mem_cons_self _ _)] at h
      replace h : (Except.error e1 :
          Except ApplyErr (Store × List (Val × Val) × List (Val × Val))) = .ok out := h
      cases h

theorem applyUpdates_ok_inv (es : List Dict) : ∀ (s : Store) (out : Store × List (Val × Val)),
    applyUpdates s es = .ok out →
    out = (es.foldl updStep s, es.map (fun e => (dgetN e "doctype", dgetN e "name"))) := by
  induction es with
  | nil =>
    intro s out h
    replace h : (Except.ok (s, []) : Except ApplyErr (Store × List (Val × Val))) = .ok out := h
    injection h with h2
    rw [← h2]
    rfl
  | cons e rest ih =>
    intro s out h
    unfold applyUpdates at h
    cases hg : getDoc s (dgetN e "doctype") (dgetN e "name") with
    | none =>
      simp only [hg] at h
      replace h : (Except.error ApplyErr.doesNotExist :
          Except ApplyErr (Store × List (Val × Val))) = .ok out := h
      cases h
    | some cur =>
      simp only [hg] at h
      cases hrec : applyUpdates (updateStore s (dgetN e "doctype") (dgetN e "name")
          (fun doc => updateFieldsFrom doc e (pyEq (dgetN e "doctype") (.s "Workspace")))) rest with
      | error e2 =>
        rw [hrec] at h
        replace h : (Except.error e2 :
            Except ApplyErr (Store × List (Val × Val))) = .ok out := h
        cases h
      | ok out2 =>
        obtain ⟨s2, updated⟩ := out2
        rw [hrec] at h
        replace h : (Except.ok (s2, (dgetN e "doctype", dgetN e "name") :: updated) :
            Except ApplyErr (Store × List (Val × Val))) = .ok out := h
        injection h with h2
        have hih := ih _ (s2, updated) hrec
        injection hih with hs2 hupd
        rw [← h2, hs2, hupd]
        rfl

end ZVO

namespace ZVO

theorem apply_plan_ok_inv (store : Store) (plan : Plan) (store' : Store) (applied : Applied)
    (hnotax : ∀ d ∈ plan.create, isTaxDoc d = false)
    (h : _apply_plan store plan = .ok (store', applied)) :
    store' = plan.update.foldl updStep (store ++ plan.create.map insertedRecord) := by
  unfold _apply_plan at h
  cases hc : applyCreates store plan.create with
  | error e =>
    simp only [hc] at h
    replace h : (Except.error e : Except ApplyErr (Store × Applied)) = .ok (store', applied) := h
    cases h
  | ok out1 =>
    obtain ⟨s1, created, fb⟩ := out1
    simp only [hc] at h
    replace h : ((do
        let out2 ← applyUpdates s1 plan.update
        Except.ok (out2.1, ⟨created, fb ++ out2.2⟩)) :
        Except ApplyErr (Store × Applied)) = .ok (store', applied) := h
    cases hu : applyUpdates s1 plan.update with
    | error e =>
      rw [hu] at h
      replace h : (Except.error e : Except ApplyErr (Store × Applied)) = .ok (store', applied) := h
      cases h
    | ok out2 =>
      obtain ⟨s2, updated⟩ := out2
      rw [hu] at h
      replace h : (Except.ok ((s2, updated).1, ⟨created, fb ++ (s2, updated).2⟩) :
          Except ApplyErr (Store × Applied)) = .ok (store', applied) := h
      injection h with h2
      injection h2 with hs _
      have h1 := applyCreates_ok_inv plan.create hnotax store _ hc
      injection h1 with hs1 _
      have h2u := applyUpdates_ok_inv plan.update s1 _ hu
      injection h2u with hs2 _
      rw [← hs, hs2, hs1]

theorem getDoc_append_some (a b : Store) (dt nm : Val) (r : Dict)
    (h : getDoc a dt nm = some r) : getDoc (a ++ b) dt nm = some r := by
  rw [getDoc_append, h]

theorem getDoc_append_none (a b : Store) (dt nm : Val)
    (h : getDoc a dt nm = none) : getDoc (a ++ b) dt nm = getDoc b dt nm := by
  rw [getDoc_append, h]

theorem getDoc_eq_none (s : Store) (dt nm : Val)
    (h : ∀ r ∈ s, idMatches r dt nm = false) : getDoc s dt nm = none := by
  unfold getDoc
  exact List.find?_eq_none.mpr (by intro r hr; simp [h r hr])

theorem dgetN_idpair_doctype (dt0 nm0 : Val) (delta : Dict) :
    dgetN ([("doctype", dt0), ("name", nm0)] ++ delta) "doctype" = dt0 := by
  simp [dgetN, dget]

theorem dgetN_idpair_name (dt0 nm0 : Val) (delta : Dict) :
    dgetN ([("doctype", dt0), ("name", nm0)] ++ delta) "name" = nm0 := by
  simp [dgetN, dget]

theorem mem_filterMap_create (store : Store) (l : List Dict) (x : Dict)
    (hx : x ∈ l.filterMap (fun d => match classifyDoc store d with
      | .create d' => some d' | _ => none)) :
    ∃ d0 ∈ l, classifyDoc store d0 = .create x := by
  rcases List.mem_filterMap.mp hx with ⟨d0, hd0, hfx⟩
  refine ⟨d0, hd0, ?_⟩
  cases hcd : classifyDoc store d0 with
  | create d' =>
    rw [hcd] at hfx
    replace hfx : some d' = some x := hfx
    injection hfx with h2
    rw [h2]
  | update e =>
    rw [hcd] at hfx
    replace hfx : (none : Option Dict) = some x := hfx
    cases hfx
  | noop e =>
    rw [hcd] at hfx
    replace hfx : (none : Option Dict) = some x := hfx
    cases hfx

theorem mem_filterMap_update (store : Store) (l : List Dict) (e : Dict)
    (he : e ∈ l.filterMap (fun d => match classifyDoc store d with
      | .update e => some e | _ => none)) :
    ∃ d0 ∈ l, classifyDoc store d0 = .update e := by
  rcases List.mem_filterMap.mp he with ⟨d0, hd0, hfx⟩
  refine ⟨d0, hd0, ?_⟩
  cases hcd : classifyDoc store d0 with
  | create d' =>
    rw [hcd] at hfx
    replace hfx : (none : Option Dict) = some e := hfx
    cases hfx
  | update e' =>
    rw [hcd] at hfx
    replace hfx : some e' = some e := hfx
    injection hfx with h2
    rw [h2]
  | noop e' =>
    rw [hcd] at hfx
    replace hfx : (none : Option Dict) = some e := hfx
    cases hfx

end ZVO

namespace ZVO

/-- C1: Planning is deterministic (the plan builder is a pure function of
the persisted store and the blueprint), and — for blueprints without
tax-charge templates, whose resolution aliasing the counterexample
refutes — after `_apply_plan` succeeds on the built plan, re-running
`_plan_changes` over the same blueprint against the updated store yields
empty `create` and `update` lists: every document classifies as noop.
Hypotheses: every document names itself with duplicate-free keys, and no
two documents share a `(doctype, name)` identity under Python `==`. -/
theorem c1_plan_idempotent
    (store store' : Store) (docs : List Dict) (applied : Applied)
    (hnotax : ∀ d ∈ docs, isTaxDoc d = false)
    (hname : ∀ d ∈ docs, hasKey d "name" = true ∧ nodupKeys d)
    (hdist : docs.Pairwise (fun d1 d2 =>
      (pyEq (dgetN d1 "doctype") (dgetN d2 "doctype")
        && pyEq (dgetN d1 "name") (dgetN d2 "name")) = false))
    (happly : _apply_plan store (_plan_changes store docs) = .ok (store', applied)) :
    _plan_changes store docs = _plan_changes store docs ∧
      (_plan_changes store' docs).create = [] ∧ (_plan_changes store' docs).update = [] := by
  have hnoop : ∀ d ∈ docs, ∃ e, classifyDoc store' d = .noop e := by
    intro d hd
    have hnt := hnotax d hd
    obtain ⟨hkname, hndd⟩ := hname d hd
    obtain ⟨pre, post, hsplit⟩ := List.append_of_mem hd
    subst hsplit
    have hpw := hdist
    rw [List.pairwise_append] at hpw
    obtain ⟨hpw1, hpw2, hpw3⟩ := hpw
    have hcons := List.pairwise_cons.mp hpw2
    have hpre_d : ∀ x ∈ pre, (pyEq (dgetN x "doctype") (dgetN d "doctype")
        && pyEq (dgetN x "name") (dgetN d "name")) = false :=
      fun x hx => hpw3 x hx d (List.mem_cons_self _ _)
    have hpost_d : ∀ y ∈ post, (pyEq (dgetN y "doctype") (dgetN d "doctype")
        && pyEq (dgetN y "name") (dgetN d "name")) = false := by
      intro y hy
      rw [pyEq_symm (dgetN y "doctype") (dgetN d "doctype"),
          pyEq_symm (dgetN y "name") (dgetN d "name")]
      exact hcons.1 y hy
    have hne_pre : ∀ e ∈ List.filterMap (fun d => match classifyDoc store d with
        | .update e => some e | _ => none) pre,
        (pyEq (dgetN e "doctype") (dgetN d "doctype")
          && pyEq (dgetN e "name") (dgetN d "name")) = false := by
      intro e he
      obtain ⟨x, hx, hcx⟩ := mem_filterMap_update store pre e he
      obtain ⟨cur0, _, hex⟩ := classifyDoc_update_inv store x e hcx
      have hntx : isTaxDoc x = false := hnotax x (List.mem_append_left _ hx)
      rw [hex, dgetN_idpair_doctype, dgetN_idpair_name, planIdentity_nontax store x hntx]
      exact hpre_d x hx
    have hne_post : ∀ e ∈ List.filterMap (fun d => match classifyDoc store d with
        | .update e => some e | _ => none) post,
        (pyEq (dgetN e "doctype") (dgetN d "doctype")
          && pyEq (dgetN e "name") (dgetN d "name")) = false := by
      intro e he
      obtain ⟨y, hy, hcy⟩ := mem_filterMap_update store post e he
      obtain ⟨cur0, _, hey⟩ := classifyDoc_update_inv store y e hcy
      have hnty : isTaxDoc y = false :=
        hnotax y (List.mem_append_right _ (List.mem_cons_of_mem _ hy))
      rw [hey, dgetN_idpair_doctype, dgetN_idpair_name, planIdentity_nontax store y hnty]
      exact hpost_d y hy
    have hcre_pre : ∀ r ∈ List.map insertedRecord (List.filterMap (fun d =>
        match classifyDoc store d with | .create d' => some d' | _ => none) pre),
        idMatches r (dgetN d "doctype") (dgetN d "name") = false := by
      intro r hr
      obtain ⟨x, hx, hrx⟩ := List.mem_map.mp hr
      obtain ⟨d0, hd0, hcd0⟩ := mem_filterMap_create store pre x hx
      obtain ⟨hpd0, _⟩ := classifyDoc_create_inv store d0 x hcd0
      have hnt0 : isTaxDoc d0 = false := hnotax d0 (List.mem_append_left _ hd0)
      rw [planDoc_nontax store d0 hnt0] at hpd0
      rw [← hrx, hpd0, idMatches_insertedRecord d0 _ _ hnt0]
      exact hpre_d d0 hd0
    have hPc : ∀ x ∈ (_plan_changes store (pre ++ d :: post)).create, isTaxDoc x = false := by
      intro x hx
      rw [plan_changes_eq] at hx
      simp only [] at hx
      obtain ⟨d0, hd0, hcd0⟩ := mem_filterMap_create store _ x hx
      obtain ⟨hpd0, _⟩ := classifyDoc_create_inv store d0 x hcd0
      rw [planDoc_nontax store d0 (hnotax d0 hd0)] at hpd0
      rw [hpd0]
      exact hnotax d0 hd0
    have hstore' := apply_plan_ok_inv store _ store' applied hPc happly
    rw [plan_changes_eq] at hstore'
    simp only [] at hstore'
    rw [List.filterMap_append, List.filterMap_append,
        List.filterMap_cons, List.filterMap_cons] at hstore'
    cases hcd : classifyDoc store d with
    | create d' =>
      obtain ⟨hpd, hgetnone⟩ := classifyDoc_create_inv store d d' hcd
      rw [planDoc_nontax store d hnt] at hpd
      rw [hpd] at hcd
      rw [planIdentity_nontax store d hnt] at hgetnone
      simp only [hcd] at hstore'
      refine ⟨_, classifyDoc_noop_of store' d (insertedRecord d) ?_ ?_⟩
      · rw [planIdentity_nontax store' d hnt, hstore']
        rw [getDoc_foldl_updStep_ne _ _ _ _ (by
          intro e he
          rcases List.mem_append.mp he with he | he
          · exact hne_pre e he
          · exact hne_post e he)]
        rw [getDoc_append_none _ _ _ _ hgetnone]
        rw [List.map_append, List.map_cons]
        rw [getDoc_append_none _ _ _ _ (getDoc_eq_none _ _ _ hcre_pre)]
        rw [getDoc_cons_self _ _ _ _ (by
          rw [idMatches_insertedRecord d _ _ hnt, pyEq_refl, pyEq_refl]
          rfl)]
      · rw [planDoc_nontax store' d hnt, insertedRecord_eq_coerce d hnt hkname]
        exact delta_norm_coerce_nil d hndd
    | update e0 =>
      obtain ⟨cur, hgetsome, he0⟩ := classifyDoc_update_inv store d e0 hcd
      rw [planIdentity_nontax store d hnt] at hgetsome
      rw [planIdentity_nontax store d hnt, planDoc_nontax store d hnt] at he0
      have hdoct : pyEq (dgetN cur "doctype") (dgetN d "doctype") = true := by
        have hm := getDoc_some_matches _ _ _ _ hgetsome
        unfold idMatches at hm
        rw [Bool.and_eq_true] at hm
        exact hm.1
      simp only [hcd] at hstore'
      refine ⟨_, classifyDoc_noop_of store' d
        (updateFieldsFrom cur e0 (pyEq (dgetN e0 "doctype") (.s "Workspace"))) ?_ ?_⟩
      · rw [planIdentity_nontax store' d hnt, hstore']
        rw [getDoc_foldl_updStep_self _ _ e0 _ _ _
          (by rw [he0, dgetN_idpair_doctype])
          (by rw [he0, dgetN_idpair_name])
          hne_pre hne_post]
        rw [getDoc_append_some _ _ _ _ cur hgetsome]
        rfl
      · rw [planDoc_nontax store' d hnt, he0, dgetN_idpair_doctype]
        exact delta_after_update_nil cur d (dgetN d "name") hndd hdoct
    | noop e0 =>
      obtain ⟨cur, hgetsome, hdelta0⟩ := classifyDoc_noop_inv store d e0 hcd
      rw [planIdentity_nontax store d hnt] at hgetsome
      rw [planDoc_nontax store d hnt] at hdelta0
      simp only [hcd] at hstore'
      refine ⟨_, classifyDoc_noop_of store' d cur ?_ ?_⟩
      · rw [planIdentity_nontax store' d hnt, hstore']
        rw [getDoc_foldl_updStep_ne _ _ _ _ (by
          intro e he
          rcases List.mem_append.mp he with he | he
          · exact hne_pre e he
          · exact hne_post e he)]
        rw [getDoc_append_some _ _ _ _ cur hgetsome]
      · rw [planDoc_nontax store' d hnt]
        exact hdelta0
  obtain ⟨h1, h2⟩ := plan_changes_noop_empty store' docs hnoop
  exact ⟨rfl, h1, h2⟩

end ZVO

namespace ZVO

/-- A one-document blueprint used to witness C1. -/
def c1wdoc : Dict :=
  [("doctype", Val.s "Role"), ("name", Val.s "Z Role"), ("desk_access", Val.i 1)]

/-- The applied summary of the C1 witness run. -/
def c1wapplied : Applied := ⟨[(Val.s "Role", Val.s "Z Role")], []⟩

/-- Witness for C1: an empty store and a one-document blueprint; the
apply succeeds concretely and the replan is empty. -/
theorem c1_plan_idempotent_witness :
    _plan_changes [] [c1wdoc] = _plan_changes [] [c1wdoc] ∧
      (_plan_changes [c1wdoc] [c1wdoc]).create = [] ∧
      (_plan_changes [c1wdoc] [c1wdoc]).update = [] :=
  c1_plan_idempotent [] [c1wdoc] [c1wdoc] c1wapplied
    (by decide) (by decide) (by simp) (by rfl)

/-- First tax-charge template of the C1 counterexample blueprint. -/
def c1d1 : Dict := [("doctype", .s taxDT), ("name", .s "N1"), ("title", .s "VAT"),
  ("company", .s "A"), ("rate", .i 1)]

/-- Second tax-charge template: same title and company, another name. -/
def c1d2 : Dict := [("doctype", .s taxDT), ("name", .s "Foo"), ("title", .s "VAT"),
  ("company", .s "A"), ("rate", .i 2)]

/-- Persisted state of the C1 counterexample: one tax template named
`Foo` with an outdated title. -/
def c1store : Store := [[("doctype", .s taxDT), ("name", .s "Foo"), ("title", .s "Old"),
  ("company", .s "A"), ("rate", .i 9)]]

/-- The C1 counterexample blueprint. -/
def c1docs : List Dict := [c1d1, c1d2]

/-- The store after the C1 counterexample run applies its plan. -/
def c1store2 : Store :=
  [[("doctype", .s taxDT), ("name", .s "Foo"), ("title", .s "VAT"),
    ("company", .s "A"), ("rate", .i 2)],
   [("doctype", .s taxDT), ("title", .s "VAT"), ("company", .s "A"),
    ("rate", .i 1), ("name", .s "VAT - A")]]

/-- The applied summary of the C1 counterexample run. -/
def c1applied : Applied :=
  ⟨[(.s taxDT, .s "VAT - A")], [(.s taxDT, .s "Foo")]⟩

/-- C1 counterexample: the apply succeeds, yet re-running the plan
builder over the same blueprint yields a non-empty `update` list — the
first tax template now resolves (by its `(title, company)` filters) to
the record the second one updated, so its `rate` keeps flip-flopping on
every run.  The original claim fails for this store and blueprint. -/
theorem c1_counterexample :
    _apply_plan c1store (_plan_changes c1store c1docs) = .ok (c1store2, c1applied) ∧
      (_plan_changes c1store2 c1docs).update =
        [[("doctype", .s taxDT), ("name", .s "Foo"), ("rate", .i 1)]] :=
  ⟨rfl, rfl⟩

end ZVO
